import Mathlib

/-!
Shallow embedding of the current-ramping and demagnetization control engine of the
Vectormagnet_Integration repository: the ITECH power-supply driver wire operations and
error taxonomy (src/core/itech_driver.py, src/IT6432/it6432connection.py), the
current-ramping hardware thread (src/core/hardware_backend.py), the dummy backend thread
(src/core/dummy_backend.py), the observer thread (src/core/backend_base.py), and the
orchestrator-level disable_field operations.

Python floats are modelled by rationals wherever the program only compares and combines
values by field operations; the demagnetization vertices, which involve exp, live in the
reals.  Stateful thread code is modelled by explicit environments (streams of measured
values, a stop-flag schedule indexed by the number of flag reads performed so far) and
traces of observable events.
-/

namespace VM

/-! ## Error-response parsing (itech_driver.checkError / it6432connection.checkError)

Python `resp.split(',')` on a list of characters, Python `int(...)` parsing, and the
two `checkError` revisions with their `_ErrorFactory` tables. -/

/-- Python str.split on the separator character: splitting the empty string yields
one empty field, and each comma opens a new field. -/
def splitComma : List Char → List (List Char)
  | [] => [[]]
  | c :: rest =>
      if c = ',' then [] :: splitComma rest
      else
        match splitComma rest with
        | [] => [[c]]
        | h :: t => (c :: h) :: t

/-- Value of a digit string, most significant first (all characters assumed digits). -/
def digitsVal (l : List Char) : ℕ :=
  l.foldl (fun a c => 10 * a + (c.toNat - 48)) 0

/-- Python int() on a whitespace-stripped character list: an optional sign followed by a
nonempty run of decimal digits; anything else raises ValueError (modelled as none). -/
def pyIntCore : List Char → Option ℤ
  | [] => none
  | '+' :: rest =>
      if rest ≠ [] ∧ rest.all Char.isDigit then some (digitsVal rest) else none
  | '-' :: rest =>
      if rest ≠ [] ∧ rest.all Char.isDigit then some (-(digitsVal rest : ℤ)) else none
  | l =>
      if l.all Char.isDigit then some (digitsVal l) else none

/-- Python int() on a character list: strips surrounding whitespace first. -/
def pyInt (l : List Char) : Option ℤ :=
  pyIntCore (((l.dropWhile Char.isWhitespace).reverse.dropWhile Char.isWhitespace).reverse)

/-- Typed device errors raised by the drivers (the Exception subclasses at the bottom of
itech_driver.py and the top of it6432connection.py); GenericError carries the literal
message. -/
inductive DevErr where
  | ParameterOverflow (code : ℤ)
  | WrongUnitsForParam (code : ℤ)
  | ParamTypeError (code : ℤ)
  | InvalidCommand (code : ℤ)
  | FrontPanelTimeout (code : ℤ)
  | InvalidCharacter (code : ℤ)
  | SyntaxErrorSCPI (code : ℤ)
  | StringDataError (code : ℤ)
  | ExecutionError (code : ℤ)
  | ErrorQueueOverrun (code : ℤ)
  | GenericError (code : ℤ) (msg : List Char)
  deriving DecidableEq, Repr

/-- ITPowerSupplyDriver._ErrorFactory (itech_driver.py lines 38-69): the fixed code table,
falling back to GenericError with the literal message. -/
def errorFactoryItech (code : ℤ) (msg : List Char) : DevErr :=
  if code = 120 then .ParameterOverflow code
  else if code = 130 then .WrongUnitsForParam code
  else if code = 140 then .ParamTypeError code
  else if code = 170 then .InvalidCommand code
  else if code = 224 then .FrontPanelTimeout code
  else if code = -101 then .InvalidCharacter code
  else if code = -102 then .SyntaxErrorSCPI code
  else if code = -150 then .StringDataError code
  else if code = -200 then .ExecutionError code
  else if code = -350 then .ErrorQueueOverrun code
  else .GenericError code msg

/-- IT6432Connection._ErrorFactory (it6432connection.py lines 81-112): this revision's
table has no entry for 140 (ParamTypeError) and none for 224 (FrontPanelTimeout). -/
def errorFactoryIT6432 (code : ℤ) (msg : List Char) : DevErr :=
  if code = 120 then .ParameterOverflow code
  else if code = 130 then .WrongUnitsForParam code
  else if code = 170 then .InvalidCommand code
  else if code = -101 then .InvalidCharacter code
  else if code = -102 then .SyntaxErrorSCPI code
  else if code = -150 then .StringDataError code
  else if code = -200 then .ExecutionError code
  else if code = -350 then .ErrorQueueOverrun code
  else .GenericError code msg

/-- Python-level exceptions escaping checkError: a ValueError (from unpacking a split that
did not produce exactly two fields, or from int() on a non-numeric field), or a typed
device error produced by the error factory. -/
inductive PyExc where
  | valueError
  | device (e : DevErr)
  deriving DecidableEq, Repr

/-- ITPowerSupplyDriver.checkError (itech_driver.py lines 198-210): split the response of
the status query on the comma, unpack into exactly two fields (ValueError otherwise),
parse the code as int (ValueError if it does not parse), return normally for codes 0 and
224, raise the factory error otherwise. -/
def checkErrorItech (resp : List Char) : Except PyExc Unit :=
  match splitComma resp with
  | [code, msg] =>
      match pyInt code with
      | none => .error .valueError
      | some c =>
          if c ≠ 0 ∧ c ≠ 224 then .error (.device (errorFactoryItech c msg)) else .ok ()
  | _ => .error .valueError

/-- IT6432Connection.checkError (it6432connection.py lines 257-269): identical parsing,
but every nonzero code raises, including 224. -/
def checkErrorIT6432 (resp : List Char) : Except PyExc Unit :=
  match splitComma resp with
  | [code, msg] =>
      match pyInt code with
      | none => .error .valueError
      | some c =>
          if c ≠ 0 then .error (.device (errorFactoryIT6432 c msg)) else .ok ()
  | _ => .error .valueError

/-- ITPowerSupplyDriver._write with check_error=True: the write itself never raises
(connection errors are swallowed and logged), then checkError runs on the device's
response to the status query. -/
def writeCheckedItech (errResp : List Char) : Except PyExc Unit :=
  checkErrorItech errResp

/-- ITPowerSupplyDriver._read with check_error=True: a timeout yields the empty string
(not an error); then checkError runs and its exception, if any, escapes; otherwise the
data that was read is returned. -/
def readCheckedItech (errResp : List Char) (data : List Char) : Except PyExc (List Char) :=
  (checkErrorItech errResp).map (fun _ => data)

/-- ITPowerSupplyDriver._query with check_error=True: write without check, read without
check, then a single checkError; its exception, if any, escapes. -/
def queryCheckedItech (errResp : List Char) (answer : List Char) : Except PyExc (List Char) :=
  (checkErrorItech errResp).map (fun _ => answer)

/-! ## Driver wire operations (itech_driver.py set_current / set_voltage) -/

/-- A command written to the wire by the driver value setters. -/
inductive WireCmd where
  | current (v : ℚ)
  | voltage (v : ℚ)
  deriving DecidableEq, Repr

/-- ITPowerSupplyDriver.set_current (lines 469-478): if the value is at most the soft
current limit it is written unchanged, otherwise the limit itself is written; in both
cases exactly one wire command is issued and no exception is raised at this layer. -/
def setCurrentCmds (currentLim v : ℚ) : List WireCmd :=
  if v ≤ currentLim then [.current v] else [.current currentLim]

/-- ITPowerSupplyDriver.set_voltage (lines 480-489): same shape for the voltage limit. -/
def setVoltageCmds (voltageLim v : ℚ) : List WireCmd :=
  if v ≤ voltageLim then [.voltage v] else [.voltage voltageLim]

/-! ## Demagnetization vertices
(hardware_backend.py _demagnetization_procedure lines 403-435 and the identical formula in
dummy_backend.py _demagnetization_procedure lines 270-284). -/

/-- The fixed reference points np.array([0.2, 1, 2, 3, 4, 5, 6, 7, 8]), 0-indexed. -/
def refPointQ (i : ℕ) : ℚ :=
  if i = 0 then 1 / 5 else (i : ℚ)

/-- The decay factors np.exp(-0.7 * reference_points). -/
noncomputable def demagFactor (i : ℕ) : ℝ :=
  Real.exp (-(7 / 10) * (refPointQ i : ℝ))

/-- One vertex of the damped oscillation: initial_current * factors * (-1)**np.arange(1, 10),
so index i (0-based) carries the sign (-1)^(i+1). -/
noncomputable def demagVertex (A0 : ℝ) (i : ℕ) : ℝ :=
  A0 * demagFactor i * (-1 : ℝ) ^ (i + 1)

/-- The full vertex sequence: the nine damped vertices followed by the appended 0. -/
noncomputable def demagVertices (A0 : ℝ) : List ℝ :=
  ((List.range 9).map (demagVertex A0)) ++ [0]

/-! ## Trace model of CurrentRampingHardwareThread (hardware_backend.py lines 240-435)

The thread's interaction with its device driver and stop event is modelled as a trace of
events over an environment supplying the stop-flag value at each flag read, the result of
each current measurement, and the result of each voltage measurement, indexed by how many
of the respective calls have happened so far. -/

/-- Observable events of one ramping thread run.  Voltages commanded during ramps can be
real (they are interpolations toward possibly irrational demagnetization vertices);
every measured value comes from the rational environment streams. -/
inductive Ev where
  | checkStop (b : Bool)
  | clrProt
  | queryOutput (isOn : Bool)
  | outputCmd (isOn : Bool)
  | callCurrent (v : ℚ)
  | callVoltage (v : ℝ)
  | measCurrent (v : ℚ)
  | measVoltage (v : ℚ)
  | emitSig (v : ℚ) (ch : ℕ)
  | sleepEv

/-- Environment of one thread run: stop-flag schedule (argument: number of flag reads so
far), current-measurement stream, voltage-measurement stream, and the initial output
relay state reported by the device. -/
structure Env where
  stop : ℕ → Bool
  measI : ℕ → ℚ
  measV : ℕ → ℚ
  outputOn : Bool

/-- Counters of environment accesses performed so far. -/
structure Cnt where
  nStop : ℕ
  nI : ℕ
  nV : ℕ
  deriving DecidableEq, Repr

/-- Componentwise order on access counters. -/
def Cnt.le (c d : Cnt) : Prop :=
  c.nStop ≤ d.nStop ∧ c.nI ≤ d.nI ∧ c.nV ≤ d.nV

/-- The same environment with a different stop-flag schedule (used to express that a
run's behaviour depends on the flag only at the reads it actually performs — in
particular, that setting the flag after a run has finished changes nothing). -/
def Env.withStop (e : Env) (s : ℕ → Bool) : Env :=
  ⟨s, e.measI, e.measV, e.outputOn⟩

/-- The for-loop of _linarly_ramp_voltage (lines 383-394): at each iteration the stop
flag is read; if set, the current limit is pinned to a fresh current measurement and the
loop exits; otherwise the voltage is raised by one step and, if a signal sink was
supplied, a fresh measurement is emitted. -/
noncomputable def linRampLoop (e : Env) (gsig : Bool) (ch : ℕ) (iv step : ℝ) :
    ℕ → ℕ → Cnt → List Ev × Cnt
  | _, 0, c => ([], c)
  | i, n + 1, c =>
      if e.stop c.nStop then
        ([.checkStop true, .measCurrent (e.measI c.nI), .callCurrent (e.measI c.nI)],
          ⟨c.nStop + 1, c.nI + 1, c.nV⟩)
      else
        let inner : List Ev × Cnt :=
          if gsig then
            ([.measCurrent (e.measI c.nI), .emitSig (e.measI c.nI) ch],
              ⟨c.nStop + 1, c.nI + 1, c.nV⟩)
          else ([], ⟨c.nStop + 1, c.nI, c.nV⟩)
        let rest := linRampLoop e gsig ch iv step (i + 1) n inner.2
        (.checkStop false :: .callVoltage (iv + (i + 1) * step) :: (inner.1 ++ rest.1),
          rest.2)

/-- _linarly_ramp_voltage (lines 370-394): measure the present voltage, command it back
(keeping voltage compliance), compute the step size, then run the loop. -/
noncomputable def linRamp (e : Env) (gsig : Bool) (ch : ℕ) (steps : ℕ) (target : ℝ)
    (c : Cnt) : List Ev × Cnt :=
  let iv : ℚ := e.measV c.nV
  let r := linRampLoop e gsig ch (iv : ℝ) ((target - (iv : ℝ)) / (steps : ℝ)) 0 steps
    ⟨c.nStop, c.nI, c.nV + 1⟩
  (.measVoltage iv :: .callVoltage (iv : ℝ) :: r.1, r.2)

/-- The while-loop polling measured current inside _ensure_voltage_compliance
(lines 358-367): queue of the last two measurements, a stable-sample counter, and no
read of the stop flag anywhere in the loop.  The fuel argument bounds the recursion;
the source loop has no such bound and can run forever. -/
def pollLoop (e : Env) (tc : ℚ) : ℕ → ℚ → ℚ → ℕ → Cnt → List Ev × Cnt
  | 0, _, _, _, c => ([], c)
  | fuel + 1, q0, _, rc, c =>
      if tc ≤ |q0| ∧ rc < 5 then
        let m := e.measI c.nI
        let rc2 := if |m - q0| < 2 / 1000 then rc + 1 else 0
        let r := pollLoop e tc fuel m q0 rc2 ⟨c.nStop, c.nI + 1, c.nV⟩
        (.measCurrent m :: r.1, r.2)
      else ([], c)

/-- np.sign on a rational. -/
def qsign (q : ℚ) : ℚ :=
  if 0 < q then 1 else if q < 0 then -1 else 0

/-- _ensure_voltage_compliance (lines 342-367): if the target current is below the
measured current in magnitude, first ramp to an intermediate voltage computed with the
underestimated resistance 0.5; then read the stop flag once, and only if it is unset
start the measurement poll. -/
noncomputable def ensureVC (e : Env) (gsig : Bool) (ch steps : ℕ) (tc tv initI : ℚ)
    (fuel : ℕ) (c : Cnt) : List Ev × Cnt :=
  let r1 : List Ev × Cnt :=
    if tc < |initI| then
      linRamp e gsig ch steps ((if tc > 2 / 100 then qsign tv * (1 / 2) * tc else 0 : ℚ) : ℝ) c
    else ([], c)
  if e.stop r1.2.nStop then
    (r1.1 ++ [.checkStop true], ⟨r1.2.nStop + 1, r1.2.nI, r1.2.nV⟩)
  else
    let m0 := e.measI r1.2.nI
    let r2 := pollLoop e tc fuel m0 0 0 ⟨r1.2.nStop + 1, r1.2.nI + 1, r1.2.nV⟩
    (r1.1 ++ .checkStop false :: .measCurrent m0 :: r2.1, r2.2)

/-- The vertex loop of _demagnetization_procedure (lines 423-433), over an arbitrary
vertex list: read the stop flag before each vertex; if set, exit the loop; otherwise
ramp to the vertex and settle for 0.1 s. -/
noncomputable def demagLoop (e : Env) (gsig : Bool) (ch steps : ℕ) :
    List ℝ → Cnt → List Ev × Cnt
  | [], c => ([], c)
  | v :: rest, c =>
      if e.stop c.nStop then
        ([.checkStop true], ⟨c.nStop + 1, c.nI, c.nV⟩)
      else
        let r1 := linRamp e gsig ch steps v ⟨c.nStop + 1, c.nI, c.nV⟩
        let r2 := demagLoop e gsig ch steps rest r1.2
        (.checkStop false :: r1.1 ++ .sleepEv :: r2.1, r2.2)

/-- _demagnetization_procedure (lines 403-435): raise the current limit to 5.01 A,
measure the present current, run the vertex loop on the damped-oscillation vertices.
The final assignment of the demagnetization-passed flag is recorded by the caller
(threadRun), since it happens unconditionally when the procedure returns. -/
noncomputable def demagProc (e : Env) (gsig : Bool) (ch steps : ℕ) (c : Cnt) :
    List Ev × Cnt :=
  let A0 : ℚ := e.measI c.nI
  let r := demagLoop e gsig ch steps (demagVertices (A0 : ℝ)) ⟨c.nStop, c.nI + 1, c.nV⟩
  (.callCurrent (501 / 100) :: .measCurrent A0 :: r.1, r.2)

/-- np.isclose(0, x, atol=0.01) with the default rtol=1e-5. -/
def iscloseZeroAtol (x : ℚ) : Bool :=
  decide (|x| ≤ 1 / 100 + |x| / 100000)

/-- Parameters of one CurrentRampingHardwareThread, after __init__ has computed and
clamped the targets: target current and voltage, ramp step count, demagnetization flag,
whether a signal sink was supplied, and the channel id. -/
structure Params where
  tc : ℚ
  tv : ℚ
  steps : ℕ
  demag : Bool
  gsig : Bool
  ch : ℕ

/-- CurrentRampingHardwareThread.run (lines 304-339): clear output protection, enable
the output at zero volts if it was off, measure the initial current, demagnetize if
requested and the current is not close to zero, ensure voltage compliance, then read the
stop flag: if unset, command the target current limit and either disable the output (for
an effectively zero target) or ramp the voltage to the target.  Returns the event trace,
the final access counters, and the demagnetization-passed flag. -/
noncomputable def threadRun (e : Env) (p : Params) (fuel : ℕ) : List Ev × Cnt × Bool :=
  let evs0 : List Ev :=
    [.clrProt, .queryOutput e.outputOn] ++
      (if e.outputOn then [] else [.callVoltage 0, .outputCmd true])
  let initI : ℚ := e.measI 0
  let doDemag : Bool := p.demag && !(iscloseZeroAtol initI)
  let rD : List Ev × Cnt :=
    if doDemag then demagProc e p.gsig p.ch p.steps ⟨0, 1, 0⟩ else ([], ⟨0, 1, 0⟩)
  let rE := ensureVC e p.gsig p.ch p.steps p.tc p.tv initI fuel rD.2
  let rF : List Ev × Cnt :=
    if e.stop rE.2.nStop then
      ([Ev.checkStop true], ⟨rE.2.nStop + 1, rE.2.nI, rE.2.nV⟩)
    else
      if p.tc ≤ 2 / 1000 ∨ |p.tv| < 1 / 1000 then
        ([Ev.checkStop false, Ev.callCurrent p.tc, Ev.outputCmd false],
          ⟨rE.2.nStop + 1, rE.2.nI, rE.2.nV⟩)
      else
        let rL := linRamp e p.gsig p.ch p.steps (p.tv : ℝ) ⟨rE.2.nStop + 1, rE.2.nI, rE.2.nV⟩
        (Ev.checkStop false :: Ev.callCurrent p.tc :: rL.1, rL.2)
  (evs0 ++ .measCurrent initI :: rD.1 ++ rE.1 ++ rF.1, rF.2, doDemag)

/-- Number of stop-flag reads recorded in a trace. -/
def countCheckStop (l : List Ev) : ℕ :=
  l.countP (fun ev => match ev with | .checkStop _ => true | _ => false)

/-- Number of set_current commands recorded in a trace. -/
def countCallCurrent (l : List Ev) : ℕ :=
  l.countP (fun ev => match ev with | .callCurrent _ => true | _ => false)

/-- Number of current measurements recorded in a trace. -/
def countMeasCurrent (l : List Ev) : ℕ :=
  l.countP (fun ev => match ev with | .measCurrent _ => true | _ => false)

/-- Number of settle sleeps recorded in a trace (one per completed demag vertex). -/
def countSleep (l : List Ev) : ℕ :=
  l.countP (fun ev => match ev with | .sleepEv => true | _ => false)

/-! ## Target computation of CurrentRampingHardwareThread.__init__ and _check_values
(hardware_backend.py lines 269-295) -/

/-- The targets computed in __init__ (lines 274-275): target current is the absolute
value of the request, target voltage carries the request's sign via np.sign and the
overestimated coil resistance 0.62. -/
def initTargets (i : ℚ) : ℚ × ℚ :=
  (|i|, qsign i * (62 / 100) * |i|)

/-- _check_values (lines 281-295): clamp the current to the soft current limit, replace
the voltage by the (positive) soft voltage limit whenever its magnitude exceeds it, then
snap an effectively-zero target to current 0.002 and voltage 0. -/
def checkValues (currentLim voltageLim : ℚ) (t : ℚ × ℚ) : ℚ × ℚ :=
  let tc1 := if t.1 > currentLim then currentLim else t.1
  let tv1 := if |t.2| > voltageLim then voltageLim else t.2
  if tc1 < 2 / 1000 ∨ |tv1| < 1 / 1000 then (2 / 1000, 0) else (tc1, tv1)

/-- The composed target computation for a requested signed current. -/
def mkTargets (currentLim voltageLim i : ℚ) : ℚ × ℚ :=
  checkValues currentLim voltageLim (initTargets i)

/-! ## Dummy backend ramping thread (dummy_backend.py CurrentRampingThread, lines 191-307)

The dummy thread mutates the shared current value of its channel directly; its state is
that single value. -/

/-- The inner stepping loop shared by the dummy run and its demagnetization procedure
(lines 242-255 and 291-304): per iteration, read the stop flag, break if set, otherwise
add one step to the channel current.  Returns the final current value and the index of
the next stop-flag read. -/
noncomputable def dummyRampLoop (stop : ℕ → Bool) (step : ℝ) :
    ℕ → ℕ → ℝ → ℝ × ℕ
  | 0, k, cur => (cur, k)
  | n + 1, k, cur =>
      if stop k then (cur, k + 1)
      else dummyRampLoop stop step n (k + 1) (cur + step)

/-- The vertex loop of the dummy _demagnetization_procedure (lines 286-307): unlike the
hardware version, the outer loop reads no stop flag; each vertex runs the inner stepping
loop (which may break) and then settles. -/
noncomputable def dummyDemagLoop (stop : ℕ → Bool) (steps : ℕ) :
    List ℝ → ℕ → ℝ → ℝ × ℕ
  | [], k, cur => (cur, k)
  | v :: rest, k, cur =>
      let r := dummyRampLoop stop ((v - cur) / (steps : ℝ)) steps k cur
      dummyDemagLoop stop steps rest r.2 r.1

/-- The dummy _demagnetization_procedure (lines 270-307): vertices computed by the same
formula as the hardware backend, from the present channel current. -/
noncomputable def dummyDemagProc (stop : ℕ → Bool) (steps k : ℕ) (cur : ℝ) : ℝ × ℕ :=
  dummyDemagLoop stop steps (demagVertices cur) k cur

/-- np.isclose(0, x) with the default tolerances atol=1e-8, rtol=1e-5. -/
def iscloseZeroDefault (x : ℚ) : Bool :=
  decide (|x| ≤ 1 / 100000000 + |x| / 100000)

/-- CurrentRampingThread.run of the dummy backend (lines 227-255): demagnetize if the
flag is set and the present current is not close to zero, then unconditionally mark
demagnetization as passed, then ramp linearly to the target.  Returns the final channel
current and the demagnetization-passed flag. -/
noncomputable def dummyRun (stop : ℕ → Bool) (demagFlag : Bool) (steps : ℕ)
    (cur0 target : ℚ) : ℝ × Bool :=
  let r1 : ℝ × ℕ :=
    if demagFlag && !(iscloseZeroDefault cur0) then
      dummyDemagProc stop steps 0 (cur0 : ℝ)
    else ((cur0 : ℝ), 0)
  let r2 := dummyRampLoop stop (((target : ℝ) - r1.1) / (steps : ℝ)) steps r1.2 r1.1
  (r2.1, true)

/-! ## Observer (backend_base.py ObserverThread, lines 35-71) -/

/-- The running-task tags CURRENT_TASK of backend_base.py. -/
inductive CurrentTask where
  | ENABLING
  | DISABLING
  | DEMAGNETIZING
  | SWITCHING
  | IDLE
  deriving DecidableEq, Repr

/-- What the observer can see about its n subject threads at each 100 ms poll tick:
whether each is alive and whether each reports demagnetization completed. -/
structure TaskObs (n : ℕ) where
  alive : ℕ → Fin n → Bool
  demagDone : ℕ → Fin n → Bool

/-- The exit condition of the observer's first loop (line 63): no subject is both alive
and not demagnetization-completed. -/
def demagPhaseDone {n : ℕ} (o : TaskObs n) (t : ℕ) : Bool :=
  decide (∀ i : Fin n, ¬(o.alive t i = true ∧ o.demagDone t i = false))

/-- The exit condition of the observer's second loop (line 67): no subject is alive. -/
def allDead {n : ℕ} (o : TaskObs n) (t : ℕ) : Bool :=
  decide (∀ i : Fin n, o.alive t i = false)

/-- The tick at which the observer's first loop exits: the first poll tick whose check of
line 63 passes.  Exists whenever the subjects eventually all exit, since a tick with no
subject alive trivially passes the first loop's check. -/
def demagExitTick {n : ℕ} (o : TaskObs n) (hterm : ∃ t, allDead o t = true) : ℕ :=
  Nat.find (p := fun t => demagPhaseDone o t = true)
    (by
      obtain ⟨t, ht⟩ := hterm
      refine ⟨t, ?_⟩
      simp only [allDead, decide_eq_true_eq] at ht
      simp only [demagPhaseDone, decide_eq_true_eq]
      intro i hi
      exact absurd hi.1 (by simp only [Bool.not_eq_true]; exact ht i))

/-- The tick at which the observer's completion loop exits, when polling starts at tick
t0: the first tick from t0 on at which every subject has exited. -/
def doneTick {n : ℕ} (o : TaskObs n) (t0 : ℕ)
    (hterm : ∃ t, t0 ≤ t ∧ allDead o t = true) : ℕ :=
  Nat.find hterm

/-- ObserverThread.run (lines 59-71), as the list of (signal value, poll tick) emissions:
with demagnetization tracking, poll to the demag exit tick and emit DEMAGNETIZING, then
poll on to the all-exited tick and emit the running task; without tracking, only the
latter.  The hypotheses are the observations that the subjects eventually all exit and
never resurrect. -/
def observerRun {n : ℕ} (o : TaskObs n) (task : CurrentTask) (checkDemag : Bool)
    (hdead : ∀ t t2 : ℕ, t ≤ t2 → allDead o t = true → allDead o t2 = true)
    (hterm : ∃ t, allDead o t = true) : List (CurrentTask × ℕ) :=
  if checkDemag then
    let t0 := demagExitTick o hterm
    let t1 := doneTick o t0
      (⟨max t0 hterm.choose, le_max_left _ _,
        hdead _ _ (le_max_right _ _) hterm.choose_spec⟩)
    [(CurrentTask.DEMAGNETIZING, t0), (task, t1)]
  else
    let t1 := doneTick o 0 (⟨hterm.choose, Nat.zero_le _, hterm.choose_spec⟩)
    [(task, t1)]

/-! ## Orchestrator-level disable_field
(hardware_backend.py ElectroMagnetBackend lines 141-236, dummy_backend.py
DummyMagnetBackend lines 80-188) -/

/-- Magnet power states MAGNET_STATE of backend_base.py. -/
inductive MagnetState where
  | ON
  | OFF
  deriving DecidableEq, Repr

/-- Actions the orchestrator performs while dispatching, in program order. -/
inductive OrchAct where
  | stopJoinAll
  | emitFieldStatus (s : MagnetState)
  | emitTaskChange (t : CurrentTask)
  | spawnRampTask (ch : ℕ) (target : ℚ)
  | startObserver (t : CurrentTask) (checkDemag : Bool)
  | raiseAttributeError
  deriving DecidableEq, Repr

/-- Orchestrator state relevant to disable_field: the magnet status, the setpoint
currents, and the demagnetization flag. -/
structure BackendState where
  magnet : MagnetState
  setpoints : Fin 3 → ℚ
  demagFlag : Bool

/-- DummyMagnetBackend._ramp_to_new_current_values (dummy_backend.py lines 142-188):
stop and join any previous threads, emit the task-change signal (DEMAGNETIZING when the
flag is set), spawn one ramping thread per channel, start the observer. -/
def dummyRampToNew (s : BackendState) (targets : Fin 3 → ℚ) (task : CurrentTask) :
    List OrchAct :=
  [.stopJoinAll,
   .emitTaskChange (if s.demagFlag then CurrentTask.DEMAGNETIZING else task),
   .spawnRampTask 0 (targets 0), .spawnRampTask 1 (targets 1), .spawnRampTask 2 (targets 2),
   .startObserver task s.demagFlag]

/-- DummyMagnetBackend.disable_field (dummy_backend.py lines 80-90): set the state to
OFF, emit the field-status signal, then ramp all channels to zero. -/
def dummyDisableField (s : BackendState) : BackendState × List OrchAct :=
  let s1 : BackendState := { s with magnet := MagnetState.OFF }
  (s1, .emitFieldStatus MagnetState.OFF :: dummyRampToNew s1 (fun _ => 0) CurrentTask.DISABLING)

/-- ElectroMagnetBackend._ramp_to_new_current_values (hardware_backend.py lines 190-236):
after stopping and joining previous threads (the AttributeError of the initial None
entries is swallowed), the method reads self.frontend — an attribute that is never
assigned anywhere in the repository — so an AttributeError escapes before any thread is
spawned.  The Bool records whether the call completed normally. -/
def hwRampToNew (_s : BackendState) (_targets : Fin 3 → ℚ) (_task : CurrentTask) :
    List OrchAct × Bool :=
  ([.stopJoinAll, .raiseAttributeError], false)

/-- ElectroMagnetBackend.disable_field (hardware_backend.py lines 141-149): ramp all
channels to zero, then set the state to OFF.  Because the ramp dispatch raises, the
state assignment is never reached and the state is returned unchanged. -/
def hwDisableField (s : BackendState) : BackendState × List OrchAct × Bool :=
  let (acts, ok) := hwRampToNew s (fun _ => 0) CurrentTask.DISABLING
  if ok then ({ s with magnet := MagnetState.OFF }, acts, true) else (s, acts, false)

/-! ## Interleaving of query pairs on the transport
(itech_driver.py _query lines 175-196, it6432connection.py query lines 236-255)

Neither driver revision holds any lock: a query is a write followed by a separate read on
the channel's socket.  The device is modelled as answering each request immediately by
appending its response to a FIFO; a read pops the oldest unread response, or yields none
on an empty queue (the read timeout). -/

/-- Program counter of one query caller: before send, after send, done. -/
structure QCaller where
  pc : ℕ
  result : Option ℚ
  deriving DecidableEq, Repr

/-- One atomic step of a caller on a response FIFO: its send appends its own response
value; its receive pops the head (none on timeout). -/
def qStep (resp : ℚ) (fifo : List ℚ) (caller : QCaller) : List ℚ × QCaller :=
  if caller.pc = 0 then (fifo ++ [resp], { pc := 1, result := none })
  else if caller.pc = 1 then
    match fifo with
    | [] => ([], { pc := 2, result := none })
    | r :: rest => (rest, { pc := 2, result := some r })
  else (fifo, caller)

/-- State of two callers A and B sharing ONE channel FIFO. -/
structure SharedSt where
  fifo : List ℚ
  ca : QCaller
  cb : QCaller
  deriving DecidableEq, Repr

/-- Interleaved execution on one shared channel; a schedule entry true steps A. -/
def sharedExec (respA respB : ℚ) : List Bool → SharedSt → SharedSt
  | [], st => st
  | b :: sched, st =>
      if b then
        let r := qStep respA st.fifo st.ca
        sharedExec respA respB sched ⟨r.1, r.2, st.cb⟩
      else
        let r := qStep respB st.fifo st.cb
        sharedExec respA respB sched ⟨r.1, st.ca, r.2⟩

/-- State of two callers on two DIFFERENT channels, each with its own FIFO (one socket
per IT6432Connection / ITPowerSupplyDriver instance). -/
structure TwoChanSt where
  fifoA : List ℚ
  ca : QCaller
  fifoB : List ℚ
  cb : QCaller
  deriving DecidableEq, Repr

/-- Interleaved execution on two independent channels. -/
def twoChanExec (respA respB : ℚ) : List Bool → TwoChanSt → TwoChanSt
  | [], st => st
  | b :: sched, st =>
      if b then
        let r := qStep respA st.fifoA st.ca
        twoChanExec respA respB sched ⟨r.1, r.2, st.fifoB, st.cb⟩
      else
        let r := qStep respB st.fifoB st.cb
        twoChanExec respA respB sched ⟨st.fifoA, st.ca, r.1, r.2⟩

/-- The fresh initial state of one caller. -/
def qInit : QCaller := { pc := 0, result := none }

/-! # Supporting lemmas -/

theorem splitComma_ne_nil (l : List Char) : splitComma l ≠ [] := by
  cases l with
  | nil => simp [splitComma]
  | cons c rest =>
    simp only [splitComma]
    by_cases h : c = ','
    · simp [h]
    · rw [if_neg h]
      cases hs : splitComma rest with
      | nil => simp
      | cons hd tl => simp

theorem splitComma_of_not_mem (l : List Char) (h : ',' ∉ l) : splitComma l = [l] := by
  induction l with
  | nil => rfl
  | cons c rest ih =>
    simp only [List.mem_cons, not_or] at h
    have hc : ¬c = ',' := fun hcc => h.1 hcc.symm
    simp only [splitComma, if_neg hc, ih h.2]

theorem splitComma_cons (c : Char) (rest : List Char) :
    splitComma (c :: rest) =
      if c = ',' then [] :: splitComma rest
      else
        match splitComma rest with
        | [] => [[c]]
        | h :: t => (c :: h) :: t := rfl

theorem splitComma_single (l : List Char) : ∀ x, splitComma l = [x] → l = x := by
  induction l with
  | nil =>
    intro x h
    exact (List.cons_eq_cons.mp h).1
  | cons c rest ih =>
    intro x h
    rw [splitComma_cons] at h
    by_cases hc : c = ','
    · rw [if_pos hc] at h
      injection h with _ h2
      exact absurd h2 (splitComma_ne_nil rest)
    · rw [if_neg hc] at h
      cases hs : splitComma rest with
      | nil => exact absurd hs (splitComma_ne_nil rest)
      | cons hd tl =>
        rw [hs] at h
        simp only at h
        obtain ⟨hx, htl⟩ := List.cons_eq_cons.mp h
        subst htl
        rw [← hx, ih hd hs]

theorem splitComma_append (a b : List Char) (ha : ',' ∉ a) :
    splitComma (a ++ ',' :: b) = a :: splitComma b := by
  induction a with
  | nil => simp [splitComma_cons]
  | cons c rest ih =>
    simp only [List.mem_cons, not_or] at ha
    have hc : ¬c = ',' := fun hcc => ha.1 hcc.symm
    rw [List.cons_append, splitComma_cons, if_neg hc, ih ha.2]

theorem splitComma_pair (l : List Char) : ∀ a b, splitComma l = [a, b] →
    l = a ++ ',' :: b := by
  induction l with
  | nil => intro a b h; simp [splitComma] at h
  | cons c rest ih =>
    intro a b h
    rw [splitComma_cons] at h
    by_cases hc : c = ','
    · rw [if_pos hc] at h
      obtain ⟨h1, h2⟩ := List.cons_eq_cons.mp h
      have hrb : rest = b := splitComma_single rest b (by rw [h2])
      subst hc hrb h1
      simp
    · rw [if_neg hc] at h
      cases hs : splitComma rest with
      | nil => exact absurd hs (splitComma_ne_nil rest)
      | cons hd tl =>
        rw [hs] at h
        simp only at h
        obtain ⟨h1, h2⟩ := List.cons_eq_cons.mp h
        have hrest : rest = hd ++ ',' :: b := ih hd b (by rw [hs, h2])
        rw [← h1, hrest]
        simp

theorem checkErrorItech_no_comma (resp : List Char) (h : ',' ∉ resp) :
    checkErrorItech resp = .error .valueError := by
  unfold checkErrorItech
  rw [splitComma_of_not_mem resp h]

theorem checkErrorIT6432_no_comma (resp : List Char) (h : ',' ∉ resp) :
    checkErrorIT6432 resp = .error .valueError := by
  unfold checkErrorIT6432
  rw [splitComma_of_not_mem resp h]

theorem checkErrorItech_ok_shape (resp : List Char)
    (h : checkErrorItech resp = .ok ()) :
    ∃ a b c, resp = a ++ ',' :: b ∧ pyInt a = some c ∧ (c = 0 ∨ c = 224) := by
  unfold checkErrorItech at h
  cases hs : splitComma resp with
  | nil => exact absurd hs (splitComma_ne_nil resp)
  | cons x xs =>
    rw [hs] at h
    cases xs with
    | nil => simp at h
    | cons y ys =>
      cases ys with
      | nil =>
        cases hp : pyInt x with
        | none =>
          simp only [hp] at h
          exact Except.noConfusion h
        | some c =>
          simp only [hp] at h
          refine ⟨x, y, c, splitComma_pair resp x y hs, hp, ?_⟩
          by_contra hcon
          push_neg at hcon
          rw [if_pos ⟨hcon.1, hcon.2⟩] at h
          exact Except.noConfusion h
      | cons z zs => simp at h

theorem checkErrorIT6432_ok_shape (resp : List Char)
    (h : checkErrorIT6432 resp = .ok ()) :
    ∃ a b, resp = a ++ ',' :: b ∧ pyInt a = some 0 := by
  unfold checkErrorIT6432 at h
  cases hs : splitComma resp with
  | nil => exact absurd hs (splitComma_ne_nil resp)
  | cons x xs =>
    rw [hs] at h
    cases xs with
    | nil => simp at h
    | cons y ys =>
      cases ys with
      | nil =>
        cases hp : pyInt x with
        | none =>
          simp only [hp] at h
          exact Except.noConfusion h
        | some c =>
          simp only [hp] at h
          refine ⟨x, y, splitComma_pair resp x y hs, ?_⟩
          by_contra hcon
          have hne : c ≠ 0 := fun hc0 => hcon (by rw [← hc0]; exact hp)
          rw [if_pos hne] at h
          exact Except.noConfusion h
      | cons z zs => simp at h

theorem checkErrorItech_eval (a b : List Char) (c : ℤ) (ha : ',' ∉ a) (hb : ',' ∉ b)
    (hc : pyInt a = some c) :
    checkErrorItech (a ++ ',' :: b) =
      if c = 0 ∨ c = 224 then .ok () else .error (.device (errorFactoryItech c b)) := by
  unfold checkErrorItech
  rw [splitComma_append a b ha, splitComma_of_not_mem b hb]
  simp only [hc]
  by_cases h0 : c = 0 ∨ c = 224
  · have h1 : ¬(c ≠ 0 ∧ c ≠ 224) := by tauto
    rw [if_neg h1, if_pos h0]
  · have h1 : c ≠ 0 ∧ c ≠ 224 := by tauto
    rw [if_pos h1, if_neg h0]

theorem checkErrorIT6432_eval (a b : List Char) (c : ℤ) (ha : ',' ∉ a) (hb : ',' ∉ b)
    (hc : pyInt a = some c) :
    checkErrorIT6432 (a ++ ',' :: b) =
      if c = 0 then .ok () else .error (.device (errorFactoryIT6432 c b)) := by
  unfold checkErrorIT6432
  rw [splitComma_append a b ha, splitComma_of_not_mem b hb]
  simp only [hc]
  by_cases h0 : c = 0
  · rw [if_pos h0, if_neg (by simp [h0])]
  · rw [if_neg h0, if_pos h0]

/-! # Claim C10 -/

/-- C10 (confirmed): for every status-query response containing no comma — in particular
the empty string that _read returns after a socket read timeout — checkError of both
driver revisions raises the tuple-unpacking ValueError, neither returning normally nor
raising a typed device error; consequently a send, receive, or query issued with
check_error left at its default True completes without exception only if the response to
'system:error?' splits at a comma into two fields whose first parses as an integer code
(and that code is 0 or 224 for the itech revision). -/
theorem C10_checkError_requires_comma :
    (∀ resp : List Char, ',' ∉ resp →
        checkErrorItech resp = .error .valueError ∧
        checkErrorIT6432 resp = .error .valueError) ∧
    (checkErrorItech [] = .error .valueError ∧
      checkErrorIT6432 [] = .error .valueError) ∧
    (∀ errResp : List Char, writeCheckedItech errResp = .ok () →
        ∃ a b c, errResp = a ++ ',' :: b ∧ pyInt a = some c ∧ (c = 0 ∨ c = 224)) ∧
    (∀ errResp data : List Char, readCheckedItech errResp data = .ok data →
        ∃ a b c, errResp = a ++ ',' :: b ∧ pyInt a = some c ∧ (c = 0 ∨ c = 224)) ∧
    (∀ errResp answer : List Char, queryCheckedItech errResp answer = .ok answer →
        ∃ a b c, errResp = a ++ ',' :: b ∧ pyInt a = some c ∧ (c = 0 ∨ c = 224)) := by
  refine ⟨fun resp h => ⟨checkErrorItech_no_comma resp h, checkErrorIT6432_no_comma resp h⟩,
    ⟨rfl, rfl⟩, fun errResp h => checkErrorItech_ok_shape errResp h, ?_, ?_⟩
  · intro errResp data h
    apply checkErrorItech_ok_shape
    cases hce : checkErrorItech errResp with
    | error e =>
      unfold readCheckedItech at h
      rw [hce] at h
      simp [Except.map] at h
    | ok u => cases u; rfl
  · intro errResp answer h
    apply checkErrorItech_ok_shape
    cases hce : checkErrorItech errResp with
    | error e =>
      unfold queryCheckedItech at h
      rw [hce] at h
      simp [Except.map] at h
    | ok u => cases u; rfl

/-- Witness for C10 at the concrete comma-free response "1". -/
theorem C10_checkError_requires_comma_witness :
    checkErrorItech ['1'] = .error .valueError ∧
      checkErrorIT6432 ['1'] = .error .valueError :=
  C10_checkError_requires_comma.1 ['1'] (by decide)

/-! # Claim C5 -/

/-- C5 counterexample: the claim asserts that checkError returns normally on code 224 in
every driver revision present in the source, but in the IT6432Connection revision the
response "224,t" raises: its checkError treats every nonzero code as an error and its
factory table has no entry for 224, so a GenericError carrying code 224 escapes. -/
theorem C5_it6432_raises_on_224 :
    checkErrorIT6432 ('2' :: '2' :: '4' :: ',' :: ['t']) =
      .error (.device (.GenericError 224 ['t'])) := rfl

/-- C5 amended: parsing a response "code,message": the itech_driver revision returns
normally exactly for codes 0 and 224 and otherwise raises the error produced by its
factory table; the it6432connection revision returns normally exactly for code 0 and
otherwise raises the error of its (smaller) table, so code 224 raises GenericError 224
there; in both revisions code 120 maps to ParameterOverflow carrying 120, and every code
outside the respective table falls back to GenericError carrying the code and the
literal message. -/
theorem C5_checkError_code_dispatch :
    (∀ a b : List Char, ∀ c : ℤ, ',' ∉ a → ',' ∉ b → pyInt a = some c →
        checkErrorItech (a ++ ',' :: b) =
          (if c = 0 ∨ c = 224 then .ok ()
           else .error (.device (errorFactoryItech c b))) ∧
        checkErrorIT6432 (a ++ ',' :: b) =
          (if c = 0 then .ok () else .error (.device (errorFactoryIT6432 c b)))) ∧
    (∀ msg : List Char,
        errorFactoryItech 120 msg = .ParameterOverflow 120 ∧
        errorFactoryIT6432 120 msg = .ParameterOverflow 120 ∧
        errorFactoryItech 224 msg = .FrontPanelTimeout 224 ∧
        errorFactoryIT6432 224 msg = .GenericError 224 msg) ∧
    (∀ cc : ℤ, ∀ msg : List Char,
        cc ∉ ([120, 130, 140, 170, 224, -101, -102, -150, -200, -350] : List ℤ) →
        errorFactoryItech cc msg = .GenericError cc msg) ∧
    (∀ cc : ℤ, ∀ msg : List Char,
        cc ∉ ([120, 130, 170, -101, -102, -150, -200, -350] : List ℤ) →
        errorFactoryIT6432 cc msg = .GenericError cc msg) := by
  refine ⟨fun a b c ha hb hc =>
      ⟨checkErrorItech_eval a b c ha hb hc, checkErrorIT6432_eval a b c ha hb hc⟩,
    fun msg => ⟨rfl, rfl, rfl, rfl⟩, ?_, ?_⟩
  · intro cc msg h
    simp only [List.mem_cons, List.not_mem_nil, or_false, not_or] at h
    obtain ⟨h1, h2, h3, h4, h5, h6, h7, h8, h9, h10⟩ := h
    simp [errorFactoryItech, h1, h2, h3, h4, h5, h6, h7, h8, h9, h10]
  · intro cc msg h
    simp only [List.mem_cons, List.not_mem_nil, or_false, not_or] at h
    obtain ⟨h1, h2, h3, h4, h5, h6, h7, h8⟩ := h
    simp [errorFactoryIT6432, h1, h2, h3, h4, h5, h6, h7, h8]

/-- Witness for C5 amended at the concrete response "120,m" in both revisions. -/
theorem C5_checkError_code_dispatch_witness :
    checkErrorItech (['1', '2', '0'] ++ ',' :: ['m']) =
      (if (120 : ℤ) = 0 ∨ (120 : ℤ) = 224 then Except.ok ()
       else .error (.device (errorFactoryItech 120 ['m']))) ∧
    checkErrorIT6432 (['1', '2', '0'] ++ ',' :: ['m']) =
      (if (120 : ℤ) = 0 then Except.ok ()
       else .error (.device (errorFactoryIT6432 120 ['m']))) :=
  C5_checkError_code_dispatch.1 ['1', '2', '0'] ['m'] 120 (by decide) (by decide) (by decide)

/-! # Claim C6 -/

/-- C6 counterexample: the claim asserts that a value whose magnitude exceeds the soft
limit is rejected before any wire traffic with a dedicated exceeds-limits error, the
signed value being reduced to the limit magnitude with its sign.  In the code,
set_current(10) with limit 5.05 writes the clamped command to the wire (no rejection,
and there is no error channel in set_current at all), and set_current(-10) — whose
magnitude also exceeds 5.05 — writes -10 completely unchanged. -/
theorem C6_setters_clamp_and_write :
    setCurrentCmds (101 / 20) 10 = [.current (101 / 20)] ∧
    setCurrentCmds (101 / 20) (-10) = [.current (-10)] ∧
    setVoltageCmds 30 40 = [.voltage 30] ∧
    (setCurrentCmds (101 / 20) 10).length = 1 := by
  refine ⟨?_, ?_, ?_, ?_⟩
  · norm_num [setCurrentCmds]
  · norm_num [setCurrentCmds]
  · norm_num [setVoltageCmds]
  · norm_num [setCurrentCmds]

/-- C6 amended: set_current and set_voltage never reject and always issue exactly one
wire command: a value at most the soft limit is written unchanged (so arbitrarily large
negative values pass through untouched), and a value above the limit is replaced by the
positive limit; in particular the magnitude of the written value can exceed the limit. -/
theorem C6_setters_behavior :
    (∀ lim v : ℚ,
        setCurrentCmds lim v = [.current (if v ≤ lim then v else lim)] ∧
        setVoltageCmds lim v = [.voltage (if v ≤ lim then v else lim)] ∧
        (setCurrentCmds lim v).length = 1 ∧ (setVoltageCmds lim v).length = 1) ∧
    (∀ lim v : ℚ, v ≤ lim →
        setCurrentCmds lim v = [.current v] ∧ setVoltageCmds lim v = [.voltage v]) ∧
    (∃ lim v w : ℚ, 0 < lim ∧ v < -lim ∧
        setCurrentCmds lim v = [.current w] ∧ lim < |w|) := by
  refine ⟨fun lim v => ?_, fun lim v h => ?_, ⟨1, -2, -2, by norm_num, by norm_num, ?_, by norm_num⟩⟩
  · unfold setCurrentCmds setVoltageCmds
    by_cases h : v ≤ lim
    · simp [h]
    · simp [h]
  · unfold setCurrentCmds setVoltageCmds
    simp [h]
  · unfold setCurrentCmds
    norm_num

/-- Witness for C6 amended at limit 5.05 and value 3. -/
theorem C6_setters_behavior_witness :
    setCurrentCmds (101 / 20) 3 = [.current 3] ∧
      setVoltageCmds (101 / 20) 3 = [.voltage 3] :=
  C6_setters_behavior.2.1 (101 / 20) 3 (by norm_num)

/-! # Claim C2 -/

/-- A suffix of a list is a suffix of any left extension of it. -/
theorem suffix_append_left {α : Type} (s l2 l1 : List α) (h : s <:+ l2) :
    s <:+ l1 ++ l2 := by
  obtain ⟨t, rfl⟩ := h
  exact ⟨l1 ++ t, by rw [List.append_assoc]⟩

/-- C2 counterexample: for the request -50 A with soft limits 5.05 A and 30 V the
computed target voltage is -31 V, whose magnitude exceeds the limit; _check_values
replaces it by the POSITIVE limit +30 V rather than sign(-50) * 30 = -30 V, so the
clamped target voltage does not keep the sign of the requested current. -/
theorem C2_voltage_clamp_drops_sign :
    mkTargets (101 / 20) 30 (-50) = (101 / 20, 30) ∧
      (30 : ℚ) ≠ qsign (-50) * 30 := by
  constructor
  · norm_num [mkTargets, initTargets, checkValues, qsign]
  · norm_num [qsign]

/-- C2 amended: target current is the absolute value of the request and target voltage
is sign(I) * 0.62 * abs(I) = 0.62 * I via the overestimated coil resistance; the current
target is then clamped to the soft current limit; the voltage target, when its magnitude
exceeds the soft voltage limit, is replaced by the positive limit value (the sign of I
is dropped in that case); if the clamped current is below 2 mA or the clamped voltage
magnitude below 1 mV, the targets are snapped to current 0.002 A and voltage exactly 0
(not a nonzero minimum), and the run then commands the current limit and disables the
output instead of performing the final voltage ramp. -/
theorem C2_targets_and_disable :
    (∀ i : ℚ, initTargets i = (|i|, (62 / 100) * i)) ∧
    (∀ cl vl i : ℚ, mkTargets cl vl i =
        (if min |i| cl < 2 / 1000 ∨
            |if (62 / 100) * |i| > vl then vl else (62 / 100) * i| < 1 / 1000
         then (2 / 1000, 0)
         else (min |i| cl, if (62 / 100) * |i| > vl then vl else (62 / 100) * i))) ∧
    (∀ e : Env, ∀ p : Params, ∀ fuel : ℕ, (∀ k, e.stop k = false) →
        (p.tc ≤ 2 / 1000 ∨ |p.tv| < 1 / 1000) →
        [Ev.checkStop false, Ev.callCurrent p.tc, Ev.outputCmd false] <:+
          (threadRun e p fuel).1) := by
  refine ⟨?_, ?_, ?_⟩
  · intro i
    unfold initTargets qsign
    rcases lt_trichotomy i 0 with h | h | h
    · rw [if_neg (by linarith), if_pos h, abs_of_neg h]; ring_nf
    · subst h; norm_num
    · rw [if_pos h, abs_of_pos h]; ring_nf
  · intro cl vl i
    unfold mkTargets checkValues initTargets
    have habs : abs (qsign i * (62 / 100) * |i|) = (62 / 100) * |i| := by
      unfold qsign
      rcases lt_trichotomy i 0 with h | h | h
      · rw [if_neg (by linarith), if_pos h, abs_mul, abs_mul]
        norm_num
      · subst h; norm_num
      · rw [if_pos h, abs_mul, abs_mul]
        norm_num
    have hsig : qsign i * (62 / 100) * |i| = (62 / 100) * i := by
      unfold qsign
      rcases lt_trichotomy i 0 with h | h | h
      · rw [if_neg (by linarith), if_pos h, abs_of_neg h]; ring
      · subst h; norm_num
      · rw [if_pos h, abs_of_pos h]; ring
    have hmin : (if |i| > cl then cl else |i|) = min |i| cl := by
      rcases le_or_lt |i| cl with h | h
      · rw [if_neg (not_lt.mpr h), min_eq_left h]
      · rw [if_pos h, min_eq_right h.le]
    have h2 : |(62 / 100 : ℚ) * i| = 62 / 100 * |i| := by
      rw [abs_mul]; norm_num
    simp only [habs, hsig, hmin, h2]
  · intro e p fuel hstop htriv
    simp only [threadRun, hstop, Bool.false_eq_true, if_false, if_pos htriv]
    apply suffix_append_left
    exact List.suffix_refl _

/-- Witness for C2 amended: the formula at i = 3, the clamp characterization at the
repository limits, and the disable branch on a concrete stop-free environment with an
effectively-zero target. -/
theorem C2_targets_and_disable_witness :
    initTargets 3 = (|(3 : ℚ)|, (62 / 100) * 3) ∧
    [Ev.checkStop false, Ev.callCurrent (2 / 1000), Ev.outputCmd false] <:+
      (threadRun ⟨fun _ => false, fun _ => 0, fun _ => 0, true⟩
        ⟨2 / 1000, 0, 5, false, false, 0⟩ 5).1 :=
  ⟨C2_targets_and_disable.1 3,
    C2_targets_and_disable.2.2 ⟨fun _ => false, fun _ => 0, fun _ => 0, true⟩
      ⟨2 / 1000, 0, 5, false, false, 0⟩ 5 (fun _ => rfl) (Or.inl (le_refl _))⟩

/-! # Claim C3 -/

theorem abs_demagVertex (A0 : ℝ) (i : ℕ) :
    |demagVertex A0 i| = |A0| * Real.exp (-(7 / 10) * (refPointQ i : ℝ)) := by
  unfold demagVertex demagFactor
  rw [abs_mul, abs_mul, abs_pow, abs_neg, abs_one, one_pow, mul_one,
    abs_of_pos (Real.exp_pos _)]

theorem refPointQ_lt (i : ℕ) (h : i + 1 < 9) : refPointQ i < refPointQ (i + 1) := by
  unfold refPointQ
  rcases Nat.eq_zero_or_pos i with rfl | hpos
  · norm_num
  · rw [if_neg (by omega), if_neg (by omega)]
    exact_mod_cast Nat.lt_succ_self i

theorem demagVertex_abs_strict_anti (A0 : ℝ) (hA : A0 ≠ 0) (i : ℕ) (h : i + 1 < 9) :
    |demagVertex A0 (i + 1)| < |demagVertex A0 i| := by
  rw [abs_demagVertex, abs_demagVertex]
  have hr : (refPointQ i : ℝ) < (refPointQ (i + 1) : ℝ) :=
    Rat.cast_lt.mpr (refPointQ_lt i h)
  have hexp : Real.exp (-(7 / 10) * (refPointQ (i + 1) : ℝ)) <
      Real.exp (-(7 / 10) * (refPointQ i : ℝ)) :=
    Real.exp_lt_exp.mpr (mul_lt_mul_of_neg_left hr (by norm_num))
  exact mul_lt_mul_of_pos_left hexp (abs_pos.mpr hA)

theorem demagVertex_alternates (A0 : ℝ) (hA : A0 ≠ 0) (i : ℕ) :
    demagVertex A0 i * demagVertex A0 (i + 1) < 0 := by
  have h1 : ((-1 : ℝ)) ^ (i + 1) * ((-1 : ℝ)) ^ (i + 1 + 1) = -1 := by
    rw [← pow_add]
    exact Odd.neg_one_pow ⟨i + 1, by ring⟩
  have key : demagVertex A0 i * demagVertex A0 (i + 1) =
      -(A0 ^ 2 * (demagFactor i * demagFactor (i + 1))) := by
    unfold demagVertex
    linear_combination (A0 ^ 2 * (demagFactor i * demagFactor (i + 1))) * h1
  rw [key, neg_lt_zero]
  have hA2 : (0 : ℝ) < A0 ^ 2 := by
    rw [← sq_abs]
    exact pow_pos (abs_pos.mpr hA) 2
  exact mul_pos hA2 (mul_pos (Real.exp_pos _) (Real.exp_pos _))

theorem demagVertices_getD (A0 : ℝ) (i : ℕ) (h : i < 9) :
    (demagVertices A0).getD i 0 = demagVertex A0 i := by
  have hr : List.range 9 = [0, 1, 2, 3, 4, 5, 6, 7, 8] := by decide
  unfold demagVertices
  rw [hr]
  interval_cases i <;> rfl

/-- C3 (confirmed): for a nonzero initial amplitude A0, the generated vertex list has the
nine damped vertices of magnitude abs(A0) * exp(-0.7 * r_i) over the fixed reference
points followed by a terminal exact 0; magnitudes strictly decrease (including into the
terminal zero) and signs strictly alternate up to the terminal zero. -/
theorem C3_demag_vertices (A0 : ℝ) (hA : A0 ≠ 0) :
    (demagVertices A0).length = 10 ∧
    (∀ i : ℕ, i < 9 → (demagVertices A0).getD i 0 = demagVertex A0 i) ∧
    (∀ i : ℕ, i < 9 →
        |(demagVertices A0).getD i 0| = |A0| * Real.exp (-(7 / 10) * (refPointQ i : ℝ))) ∧
    (demagVertices A0).getD 9 0 = 0 ∧
    (∀ i : ℕ, i + 1 < 9 →
        |(demagVertices A0).getD (i + 1) 0| < |(demagVertices A0).getD i 0|) ∧
    |(demagVertices A0).getD 9 0| < |(demagVertices A0).getD 8 0| ∧
    (∀ i : ℕ, i + 1 < 9 →
        (demagVertices A0).getD i 0 * (demagVertices A0).getD (i + 1) 0 < 0) := by
  have hr : List.range 9 = [0, 1, 2, 3, 4, 5, 6, 7, 8] := by decide
  refine ⟨by simp [demagVertices], demagVertices_getD A0, ?_, ?_, ?_, ?_, ?_⟩
  · intro i h
    rw [demagVertices_getD A0 i h]
    exact abs_demagVertex A0 i
  · unfold demagVertices
    rw [hr]
    rfl
  · intro i h
    rw [demagVertices_getD A0 i (by omega), demagVertices_getD A0 (i + 1) h]
    exact demagVertex_abs_strict_anti A0 hA i h
  · have h9 : (demagVertices A0).getD 9 0 = 0 := by
      unfold demagVertices; rw [hr]; rfl
    rw [h9, demagVertices_getD A0 8 (by omega), abs_zero, abs_demagVertex]
    exact mul_pos (abs_pos.mpr hA) (Real.exp_pos _)
  · intro i h
    rw [demagVertices_getD A0 i (by omega), demagVertices_getD A0 (i + 1) h]
    exact demagVertex_alternates A0 hA i

/-! # Claim C7 -/

theorem demagExit_exists {n : ℕ} (o : TaskObs n) (hterm : ∃ t, allDead o t = true) :
    ∃ t, demagPhaseDone o t = true := by
  obtain ⟨t, ht⟩ := hterm
  refine ⟨t, ?_⟩
  simp only [allDead, decide_eq_true_eq] at ht
  simp only [demagPhaseDone, decide_eq_true_eq]
  intro i hi
  exact absurd hi.1 (by simp only [Bool.not_eq_true]; exact ht i)

theorem demagExitTick_spec {n : ℕ} (o : TaskObs n) (hterm : ∃ t, allDead o t = true) :
    demagPhaseDone o (demagExitTick o hterm) = true :=
  Nat.find_spec (demagExit_exists o hterm)

theorem demagExitTick_min {n : ℕ} (o : TaskObs n) (hterm : ∃ t, allDead o t = true)
    (t : ℕ) (h : t < demagExitTick o hterm) : ¬demagPhaseDone o t = true :=
  Nat.find_min (demagExit_exists o hterm) h

theorem doneTick_spec {n : ℕ} (o : TaskObs n) (t0 : ℕ)
    (h : ∃ t, t0 ≤ t ∧ allDead o t = true) :
    t0 ≤ doneTick o t0 h ∧ allDead o (doneTick o t0 h) = true :=
  Nat.find_spec h

theorem doneTick_min {n : ℕ} (o : TaskObs n) (t0 : ℕ)
    (h : ∃ t, t0 ≤ t ∧ allDead o t = true) (t : ℕ) (ht : t < doneTick o t0 h) :
    ¬(t0 ≤ t ∧ allDead o t = true) :=
  Nat.find_min h ht

/-- C7 (confirmed): with demagnetization tracking the observer emits exactly two signals:
DEMAGNETIZING at the first poll tick at which every subject has reported demagnetization
passed or exited, then the running-task completion signal at the first subsequent tick
at which every subject has exited — so the completion signal is emitted exactly once and
never while any subject is alive; without tracking it emits only the completion signal,
again at the first all-exited tick.  The hypotheses are that exited subjects stay exited
and that all subjects eventually exit (otherwise the source loops poll forever). -/
theorem C7_observer {n : ℕ} (o : TaskObs n) (task : CurrentTask)
    (hdead : ∀ t t2 : ℕ, t ≤ t2 → allDead o t = true → allDead o t2 = true)
    (hterm : ∃ t, allDead o t = true) (htask : task ≠ CurrentTask.DEMAGNETIZING) :
    (∃ t0 t1 : ℕ,
        observerRun o task true hdead hterm = [(CurrentTask.DEMAGNETIZING, t0), (task, t1)] ∧
        t0 ≤ t1 ∧
        (∀ i : Fin n, ¬(o.alive t0 i = true ∧ o.demagDone t0 i = false)) ∧
        (∀ t < t0, ∃ i : Fin n, o.alive t i = true ∧ o.demagDone t i = false) ∧
        (∀ i : Fin n, o.alive t1 i = false) ∧
        (∀ t, t0 ≤ t → t < t1 → ∃ i : Fin n, o.alive t i = true) ∧
        (observerRun o task true hdead hterm).countP (fun x => decide (x.1 = task)) = 1) ∧
    (∃ t2 : ℕ,
        observerRun o task false hdead hterm = [(task, t2)] ∧
        (∀ i : Fin n, o.alive t2 i = false) ∧
        (∀ t < t2, ∃ i : Fin n, o.alive t i = true) ∧
        (observerRun o task false hdead hterm).countP (fun x => decide (x.1 = task)) = 1) := by
  constructor
  · have hEx : ∃ t, demagExitTick o hterm ≤ t ∧ allDead o t = true :=
      ⟨max (demagExitTick o hterm) hterm.choose, le_max_left _ _,
        hdead _ _ (le_max_right _ _) hterm.choose_spec⟩
    refine ⟨demagExitTick o hterm, doneTick o (demagExitTick o hterm) hEx,
      rfl, ?_, ?_, ?_, ?_, ?_, ?_⟩
    · exact (doneTick_spec o _ hEx).1
    · have h := demagExitTick_spec o hterm
      simp only [demagPhaseDone, decide_eq_true_eq] at h
      exact h
    · intro t ht
      have h := demagExitTick_min o hterm t ht
      simp only [demagPhaseDone, decide_eq_true_eq, not_forall, not_not] at h
      obtain ⟨i, hi⟩ := h
      exact ⟨i, by tauto⟩
    · have h := (doneTick_spec o _ hEx).2
      simp only [allDead, decide_eq_true_eq] at h
      exact h
    · intro t h0 h1
      have h := doneTick_min o (demagExitTick o hterm) hEx t h1
      rw [not_and] at h
      have h2 := h h0
      simp only [allDead, decide_eq_true_eq, not_forall] at h2
      obtain ⟨i, hi⟩ := h2
      exact ⟨i, by simpa using hi⟩
    · simp only [observerRun, if_true, List.countP_cons, List.countP_nil]
      simp [htask.symm, Ne.symm htask]
  · refine ⟨doneTick o 0 ⟨hterm.choose, Nat.zero_le _, hterm.choose_spec⟩, rfl, ?_, ?_, ?_⟩
    · have h := (doneTick_spec o 0 ⟨hterm.choose, Nat.zero_le _, hterm.choose_spec⟩).2
      simp only [allDead, decide_eq_true_eq] at h
      exact h
    · intro t ht
      have h := doneTick_min o 0 _ t ht
      rw [not_and] at h
      have h2 := h (Nat.zero_le _)
      simp only [allDead, decide_eq_true_eq, not_forall] at h2
      obtain ⟨i, hi⟩ := h2
      exact ⟨i, by simpa using hi⟩
    · simp [observerRun]

/-- Witness for C7: a single subject that is alive only at tick 0 and never reports
demagnetization; both loops exit at tick 1. -/
theorem C7_observer_witness :
    (∃ t0 t1 : ℕ,
        observerRun (n := 1)
            ⟨fun t _ => decide (t = 0), fun _ _ => false⟩ CurrentTask.DISABLING true
            (by
              intro t t2 hle hd
              simp only [allDead, decide_eq_true_eq] at hd ⊢
              intro i
              have h0 := hd i
              simp only [decide_eq_false_iff_not] at h0 ⊢
              omega)
            ⟨1, by decide⟩ =
          [(CurrentTask.DEMAGNETIZING, t0), (CurrentTask.DISABLING, t1)] ∧
        t0 ≤ t1 ∧
        (∀ _i : Fin 1, ¬((decide (t0 = 0) : Bool) = true ∧ (false : Bool) = false)) ∧
        (∀ t < t0, ∃ _i : Fin 1, (decide (t = 0) : Bool) = true ∧ (false : Bool) = false) ∧
        (∀ _i : Fin 1, (decide (t1 = 0) : Bool) = false) ∧
        (∀ t, t0 ≤ t → t < t1 → ∃ _i : Fin 1, (decide (t = 0) : Bool) = true) ∧
        (observerRun (n := 1)
            ⟨fun t _ => decide (t = 0), fun _ _ => false⟩ CurrentTask.DISABLING true
            (by
              intro t t2 hle hd
              simp only [allDead, decide_eq_true_eq] at hd ⊢
              intro i
              have h0 := hd i
              simp only [decide_eq_false_iff_not] at h0 ⊢
              omega)
            ⟨1, by decide⟩).countP (fun x => decide (x.1 = CurrentTask.DISABLING)) = 1) := by
  have h := C7_observer (n := 1)
      ⟨fun t _ => decide (t = 0), fun _ _ => false⟩ CurrentTask.DISABLING
      (by
        intro t t2 hle hd
        simp only [allDead, decide_eq_true_eq] at hd ⊢
        intro i
        have h0 := hd i
        simp only [decide_eq_false_iff_not] at h0 ⊢
        omega)
      ⟨1, by decide⟩ (by decide)
  exact h.1

/-! # Claim C8 -/

/-- C8 counterexample: the dummy backend's disable_field called with the magnet already
Off spawns three ramp tasks and an observer and emits signals, contradicting the claim
that it spawns no ramp tasks and issues no ramp commands. -/
theorem C8_disableField_spawns_when_off :
    OrchAct.spawnRampTask 0 0 ∈ (dummyDisableField ⟨MagnetState.OFF, fun _ => 0, false⟩).2 ∧
    ((dummyDisableField ⟨MagnetState.OFF, fun _ => 0, false⟩).2.countP
      (fun a => match a with | .spawnRampTask _ _ => true | _ => false)) = 3 := by
  constructor
  · simp [dummyDisableField, dummyRampToNew]
  · rfl

/-- C8 amended: neither backend guards disable_field by the magnet state.  The dummy
backend always sets the state to Off, emits the field-status and task signals, and
spawns three zero-target ramp tasks plus an observer: idempotent on the state (repeating
the call yields the same state and the same actions) but not a no-op.  The hardware
backend's disable_field always raises AttributeError at the never-assigned frontend
attribute right after stopping and joining previous tasks, so it spawns no tasks,
completes abnormally, and leaves the state untouched. -/
theorem C8_disableField_behavior :
    (∀ s : BackendState,
        (dummyDisableField s).1 = { s with magnet := MagnetState.OFF } ∧
        (dummyDisableField s).2 =
          [.emitFieldStatus MagnetState.OFF, .stopJoinAll,
           .emitTaskChange
             (if s.demagFlag then CurrentTask.DEMAGNETIZING else CurrentTask.DISABLING),
           .spawnRampTask 0 0, .spawnRampTask 1 0, .spawnRampTask 2 0,
           .startObserver CurrentTask.DISABLING s.demagFlag] ∧
        dummyDisableField (dummyDisableField s).1 =
          ((dummyDisableField s).1, (dummyDisableField s).2)) ∧
    (∀ s : BackendState, hwDisableField s = (s, [.stopJoinAll, .raiseAttributeError], false)) := by
  refine ⟨fun s => ⟨rfl, rfl, rfl⟩, fun s => rfl⟩

/-! # Claim C9 -/

/-- C9 counterexample: query holds no lock, so on one shared channel the interleaving
A.send B.send B.recv A.recv delivers A's response to B and B's response to A, observably
different from the serial schedules, refuting the claim that the send and receive of a
query are atomic under a combined per-channel lock. -/
theorem C9_shared_channel_interleaving_swaps :
    (sharedExec 1 2 [true, false, false, true] ⟨[], qInit, qInit⟩).ca.result = some 2 ∧
    (sharedExec 1 2 [true, false, false, true] ⟨[], qInit, qInit⟩).cb.result = some 1 ∧
    (sharedExec 1 2 [true, true, false, false] ⟨[], qInit, qInit⟩).ca.result = some 1 ∧
    (sharedExec 1 2 [true, true, false, false] ⟨[], qInit, qInit⟩).cb.result = some 2 := by
  refine ⟨rfl, rfl, rfl, rfl⟩

/-- C9 amended: neither driver revision takes any lock; a query is a separate send step
and receive step, so two logically concurrent callers on the SAME channel can interleave
their request/response pairs and observably swap responses.  Across channels, isolation
does hold: each driver instance owns its own socket, and for one caller per channel
every schedule delivers to each caller exactly its own channel's response. -/
theorem C9_query_races :
    (∃ sched : List Bool,
        (sharedExec 1 2 sched ⟨[], qInit, qInit⟩).ca.result = some 2 ∧
        (sharedExec 1 2 sched ⟨[], qInit, qInit⟩).cb.result = some 1) ∧
    (∀ respA respB : ℚ, ∀ sched : List Bool,
        ((twoChanExec respA respB sched ⟨[], qInit, [], qInit⟩).ca.pc = 2 →
          (twoChanExec respA respB sched ⟨[], qInit, [], qInit⟩).ca.result = some respA) ∧
        ((twoChanExec respA respB sched ⟨[], qInit, [], qInit⟩).cb.pc = 2 →
          (twoChanExec respA respB sched ⟨[], qInit, [], qInit⟩).cb.result = some respB)) := by
  constructor
  · exact ⟨[true, false, false, true], rfl, rfl⟩
  · intro respA respB sched
    -- invariant: a caller's private channel is fully determined by its own progress
    let P : ℚ → List ℚ → QCaller → Prop := fun resp fifo caller =>
      (caller.pc = 0 ∧ fifo = [] ∧ caller.result = none) ∨
      (caller.pc = 1 ∧ fifo = [resp] ∧ caller.result = none) ∨
      (caller.pc = 2 ∧ fifo = [] ∧ caller.result = some resp)
    have hstep : ∀ resp : ℚ, ∀ fifo : List ℚ, ∀ caller : QCaller,
        P resp fifo caller →
        P resp (qStep resp fifo caller).1 (qStep resp fifo caller).2 := by
      intro resp fifo caller h
      rcases h with ⟨h0, hf, hr⟩ | ⟨h1, hf, hr⟩ | ⟨h2, hf, hr⟩
      · right; left
        subst hf
        simp [qStep, h0]
      · right; right
        subst hf
        simp [qStep, h1]
      · right; right
        subst hf
        simp [qStep, h2, hr]
    have main : ∀ sched : List Bool, ∀ st : TwoChanSt,
        P respA st.fifoA st.ca → P respB st.fifoB st.cb →
        P respA (twoChanExec respA respB sched st).fifoA
            (twoChanExec respA respB sched st).ca ∧
        P respB (twoChanExec respA respB sched st).fifoB
            (twoChanExec respA respB sched st).cb := by
      intro sched
      induction sched with
      | nil => intro st hA hB; exact ⟨hA, hB⟩
      | cons b rest ih =>
        intro st hA hB
        by_cases hb : b = true
        · subst hb
          simp only [twoChanExec, if_true]
          exact ih _ (hstep respA _ _ hA) hB
        · rw [Bool.not_eq_true] at hb
          subst hb
          simp only [twoChanExec, Bool.false_eq_true, if_false]
          exact ih _ hA (hstep respB _ _ hB)
    have h0A : P respA ([] : List ℚ) qInit := Or.inl ⟨rfl, rfl, rfl⟩
    have h0B : P respB ([] : List ℚ) qInit := Or.inl ⟨rfl, rfl, rfl⟩
    obtain ⟨hA, hB⟩ := main sched ⟨[], qInit, [], qInit⟩ h0A h0B
    constructor
    · intro hpc
      rcases hA with ⟨h0, _, _⟩ | ⟨h1, _, _⟩ | ⟨_, _, hr⟩
      · rw [hpc] at h0; exact absurd h0 (by norm_num)
      · rw [hpc] at h1; exact absurd h1 (by norm_num)
      · exact hr
    · intro hpc
      rcases hB with ⟨h0, _, _⟩ | ⟨h1, _, _⟩ | ⟨_, _, hr⟩
      · rw [hpc] at h0; exact absurd h0 (by norm_num)
      · rw [hpc] at h1; exact absurd h1 (by norm_num)
      · exact hr

/-- Witness for C9 amended on the cross-channel isolation part: the serial schedule on
two channels delivers each caller its own response. -/
theorem C9_query_races_witness :
    (twoChanExec 1 2 [true, true, false, false] ⟨[], qInit, [], qInit⟩).ca.result = some 1 :=
  (C9_query_races.2 1 2 [true, true, false, false]).1 rfl

/-! # Trace lemmas for the ramping thread (claims C1 and C4) -/

theorem linRampLoop_unstopped (e : Env) (g : Bool) (ch : ℕ) (iv st : ℝ)
    (hstop : ∀ k, e.stop k = false) : ∀ n i : ℕ, ∀ c : Cnt,
    countCheckStop (linRampLoop e g ch iv st i n c).1 = n ∧
    countCallCurrent (linRampLoop e g ch iv st i n c).1 = 0 ∧
    countSleep (linRampLoop e g ch iv st i n c).1 = 0 := by
  intro n
  induction n with
  | zero =>
    intro i c
    simp [linRampLoop, countCheckStop, countCallCurrent, countSleep]
  | succ m ih =>
    intro i c
    cases g
    · have hrec := ih (i + 1) ⟨c.nStop + 1, c.nI, c.nV⟩
      simp only [countCheckStop, countCallCurrent, countSleep] at hrec ⊢
      simp [linRampLoop, hstop, List.countP_append, List.countP_cons, hrec.1, hrec.2.1,
        hrec.2.2]
    · have hrec := ih (i + 1) ⟨c.nStop + 1, c.nI + 1, c.nV⟩
      simp only [countCheckStop, countCallCurrent, countSleep] at hrec ⊢
      simp [linRampLoop, hstop, List.countP_append, List.countP_cons, hrec.1, hrec.2.1,
        hrec.2.2]

theorem linRamp_unstopped (e : Env) (g : Bool) (ch steps : ℕ) (target : ℝ) (c : Cnt)
    (hstop : ∀ k, e.stop k = false) :
    countCheckStop (linRamp e g ch steps target c).1 = steps ∧
    countCallCurrent (linRamp e g ch steps target c).1 = 0 ∧
    countSleep (linRamp e g ch steps target c).1 = 0 := by
  have h := linRampLoop_unstopped e g ch ((e.measV c.nV : ℚ) : ℝ)
    ((target - ((e.measV c.nV : ℚ) : ℝ)) / (steps : ℝ)) hstop steps 0
    ⟨c.nStop, c.nI, c.nV + 1⟩
  simp only [countCheckStop, countCallCurrent, countSleep] at h ⊢
  simp [linRamp, List.countP_cons, h.1, h.2.1, h.2.2]

theorem linRampLoop_sleep (e : Env) (g : Bool) (ch : ℕ) (iv st : ℝ) : ∀ n i : ℕ, ∀ c : Cnt,
    countSleep (linRampLoop e g ch iv st i n c).1 = 0 := by
  intro n
  induction n with
  | zero => intro i c; simp [linRampLoop, countSleep]
  | succ m ih =>
    intro i c
    by_cases hs : e.stop c.nStop
    · simp [linRampLoop, hs, countSleep, List.countP_cons]
    · cases g
      · have hrec := ih (i + 1) ⟨c.nStop + 1, c.nI, c.nV⟩
        simp only [countSleep] at hrec ⊢
        simp [linRampLoop, hs, List.countP_append, List.countP_cons, hrec]
      · have hrec := ih (i + 1) ⟨c.nStop + 1, c.nI + 1, c.nV⟩
        simp only [countSleep] at hrec ⊢
        simp [linRampLoop, hs, List.countP_append, List.countP_cons, hrec]

theorem linRamp_sleep (e : Env) (g : Bool) (ch steps : ℕ) (target : ℝ) (c : Cnt) :
    countSleep (linRamp e g ch steps target c).1 = 0 := by
  have h := linRampLoop_sleep e g ch ((e.measV c.nV : ℚ) : ℝ)
    ((target - ((e.measV c.nV : ℚ) : ℝ)) / (steps : ℝ)) steps 0 ⟨c.nStop, c.nI, c.nV + 1⟩
  simp only [countSleep] at h ⊢
  simp [linRamp, List.countP_cons, h]

theorem pollLoop_counts (e : Env) (tc : ℚ) : ∀ fuel : ℕ, ∀ q0 q1 : ℚ, ∀ rc : ℕ, ∀ c : Cnt,
    countCheckStop (pollLoop e tc fuel q0 q1 rc c).1 = 0 ∧
    countCallCurrent (pollLoop e tc fuel q0 q1 rc c).1 = 0 ∧
    countSleep (pollLoop e tc fuel q0 q1 rc c).1 = 0 ∧
    (pollLoop e tc fuel q0 q1 rc c).2.nStop = c.nStop ∧
    (pollLoop e tc fuel q0 q1 rc c).2.nV = c.nV := by
  intro fuel
  induction fuel with
  | zero =>
    intro q0 q1 rc c
    simp [pollLoop, countCheckStop, countCallCurrent, countSleep]
  | succ m ih =>
    intro q0 q1 rc c
    by_cases hcond : tc ≤ |q0| ∧ rc < 5
    · have hrec := ih (e.measI c.nI) q0 (if |e.measI c.nI - q0| < 2 / 1000 then rc + 1 else 0)
        ⟨c.nStop, c.nI + 1, c.nV⟩
      simp only [countCheckStop, countCallCurrent, countSleep] at hrec ⊢
      simp [pollLoop, hcond, List.countP_cons, hrec.1, hrec.2.1, hrec.2.2.1, hrec.2.2.2.1,
        hrec.2.2.2.2]
    · simp [pollLoop, hcond, countCheckStop, countCallCurrent, countSleep]

theorem ensureVC_one_check (e : Env) (g : Bool) (ch steps : ℕ) (tc tv initI : ℚ)
    (fuel : ℕ) (c : Cnt) (h : |initI| ≤ tc) :
    countCheckStop (ensureVC e g ch steps tc tv initI fuel c).1 = 1 := by
  have hnr : ¬(tc < |initI|) := not_lt.mpr h
  by_cases hs : e.stop c.nStop
  · simp [ensureVC, hnr, hs, countCheckStop, List.countP_append, List.countP_cons]
  · have hp := pollLoop_counts e tc fuel (e.measI c.nI) 0 0 ⟨c.nStop + 1, c.nI + 1, c.nV⟩
    simp only [countCheckStop] at hp ⊢
    simp [ensureVC, hnr, hs, List.countP_append, List.countP_cons, hp.1]

theorem ensureVC_sleep (e : Env) (g : Bool) (ch steps : ℕ) (tc tv initI : ℚ)
    (fuel : ℕ) (c : Cnt) :
    countSleep (ensureVC e g ch steps tc tv initI fuel c).1 = 0 := by
  unfold ensureVC
  set r1 := (if tc < |initI| then
      linRamp e g ch steps ((if tc > 2 / 100 then qsign tv * (1 / 2) * tc else 0 : ℚ) : ℝ) c
    else ([], c)) with hr1def
  have hr1 : countSleep r1.1 = 0 := by
    rw [hr1def]
    split
    · exact linRamp_sleep e g ch steps _ c
    · simp [countSleep]
  by_cases hs : e.stop r1.2.nStop
  · simp only [if_pos hs]
    simp only [countSleep] at hr1 ⊢
    simp [List.countP_append, List.countP_cons, hr1]
  · simp only [if_neg hs]
    have hp := (pollLoop_counts e tc fuel (e.measI r1.2.nI) 0 0
      ⟨r1.2.nStop + 1, r1.2.nI + 1, r1.2.nV⟩).2.2.1
    simp only [countSleep] at hr1 hp ⊢
    simp [List.countP_append, List.countP_cons, hr1, hp]

theorem demagLoop_unstopped (e : Env) (g : Bool) (ch steps : ℕ)
    (hstop : ∀ k, e.stop k = false) : ∀ verts : List ℝ, ∀ c : Cnt,
    countCheckStop (demagLoop e g ch steps verts c).1 = verts.length * (1 + steps) ∧
    countCallCurrent (demagLoop e g ch steps verts c).1 = 0 ∧
    countSleep (demagLoop e g ch steps verts c).1 = verts.length := by
  intro verts
  induction verts with
  | nil =>
    intro c
    simp [demagLoop, countCheckStop, countCallCurrent, countSleep]
  | cons v rest ih =>
    intro c
    have hlr := linRamp_unstopped e g ch steps v ⟨c.nStop + 1, c.nI, c.nV⟩ hstop
    have hrec := ih (linRamp e g ch steps v ⟨c.nStop + 1, c.nI, c.nV⟩).2
    simp only [countCheckStop, countCallCurrent, countSleep] at hlr hrec ⊢
    simp [demagLoop, hstop, List.countP_append, List.countP_cons, hlr.1, hlr.2.1, hlr.2.2,
      hrec.1, hrec.2.1, hrec.2.2]
    ring

/-- The demag vertex list always has ten entries. -/
theorem demagVertices_length (A0 : ℝ) : (demagVertices A0).length = 10 := by
  simp [demagVertices]

theorem linRampLoop_nStop_le (e : Env) (g : Bool) (ch : ℕ) (iv st : ℝ) :
    ∀ n i : ℕ, ∀ c : Cnt, c.nStop ≤ (linRampLoop e g ch iv st i n c).2.nStop := by
  intro n
  induction n with
  | zero => intro i c; simp [linRampLoop]
  | succ m ih =>
    intro i c
    by_cases hs : e.stop c.nStop
    · simp [linRampLoop, hs]
    · simp only [linRampLoop, hs, Bool.false_eq_true, if_false]
      refine le_trans ?_ (ih (i + 1) _)
      cases g <;> exact Nat.le_succ c.nStop

theorem linRamp_nStop_le (e : Env) (g : Bool) (ch steps : ℕ) (target : ℝ) (c : Cnt) :
    c.nStop ≤ (linRamp e g ch steps target c).2.nStop := by
  have h := linRampLoop_nStop_le e g ch ((e.measV c.nV : ℚ) : ℝ)
    ((target - ((e.measV c.nV : ℚ) : ℝ)) / (steps : ℝ)) steps 0 ⟨c.nStop, c.nI, c.nV + 1⟩
  simpa [linRamp] using h

theorem ensureVC_final_nStop (e : Env) (g : Bool) (ch steps : ℕ) (tc tv initI : ℚ)
    (fuel : ℕ) (c : Cnt) :
    (ensureVC e g ch steps tc tv initI fuel c).2.nStop =
      (if tc < |initI| then
        linRamp e g ch steps
          ((if tc > 2 / 100 then qsign tv * (1 / 2) * tc else 0 : ℚ) : ℝ) c
      else ([], c)).2.nStop + 1 := by
  unfold ensureVC
  set r1 := (if tc < |initI| then
      linRamp e g ch steps ((if tc > 2 / 100 then qsign tv * (1 / 2) * tc else 0 : ℚ) : ℝ) c
    else ([], c)) with hr1def
  by_cases hs : e.stop r1.2.nStop
  · simp [if_pos hs]
  · simp only [if_neg hs]
    exact (pollLoop_counts e tc fuel (e.measI r1.2.nI) 0 0
      ⟨r1.2.nStop + 1, r1.2.nI + 1, r1.2.nV⟩).2.2.2.1

theorem ensureVC_nStop_le (e : Env) (g : Bool) (ch steps : ℕ) (tc tv initI : ℚ)
    (fuel : ℕ) (c : Cnt) :
    c.nStop < (ensureVC e g ch steps tc tv initI fuel c).2.nStop := by
  rw [ensureVC_final_nStop]
  split
  · have := linRamp_nStop_le e g ch steps
      ((if tc > 2 / 100 then qsign tv * (1 / 2) * tc else 0 : ℚ) : ℝ) c
    omega
  · simp

theorem demagLoop_nStop_le (e : Env) (g : Bool) (ch steps : ℕ) :
    ∀ verts : List ℝ, ∀ c : Cnt, c.nStop ≤ (demagLoop e g ch steps verts c).2.nStop := by
  intro verts
  induction verts with
  | nil => intro c; simp [demagLoop]
  | cons v rest ih =>
    intro c
    by_cases hs : e.stop c.nStop
    · simp [demagLoop, hs]
    · have h1 := linRamp_nStop_le e g ch steps v ⟨c.nStop + 1, c.nI, c.nV⟩
      have h2 := ih (linRamp e g ch steps v ⟨c.nStop + 1, c.nI, c.nV⟩).2
      simp only [demagLoop, hs, Bool.false_eq_true, if_false]
      simp only [Cnt.mk.injEq] at h1 ⊢
      omega

theorem demagProc_nStop_le (e : Env) (g : Bool) (ch steps : ℕ) (c : Cnt) :
    c.nStop ≤ (demagProc e g ch steps c).2.nStop := by
  have h := demagLoop_nStop_le e g ch steps (demagVertices ((e.measI c.nI : ℚ) : ℝ))
    ⟨c.nStop, c.nI + 1, c.nV⟩
  simpa [demagProc] using h

/-! Frame lemmas: each trace function reads the stop schedule only at the indices
between its starting and final nStop counter, so two schedules agreeing there produce
identical behaviour.  This is what makes cancelling an already-finished task a no-op. -/

theorem pollLoop_frame (e : Env) (s2 : ℕ → Bool) (tc : ℚ) :
    ∀ fuel : ℕ, ∀ q0 q1 : ℚ, ∀ rc : ℕ, ∀ c : Cnt,
    pollLoop (Env.withStop e s2) tc fuel q0 q1 rc c = pollLoop e tc fuel q0 q1 rc c := by
  intro fuel
  induction fuel with
  | zero => intro q0 q1 rc c; rfl
  | succ m ih =>
    intro q0 q1 rc c
    by_cases hcond : tc ≤ |q0| ∧ rc < 5
    · simp only [pollLoop, if_pos hcond]
      rw [show (Env.withStop e s2).measI = e.measI from rfl, ih]
    · simp only [pollLoop, if_neg hcond]

theorem linRampLoop_frame (e : Env) (s2 : ℕ → Bool) (g : Bool) (ch : ℕ) (iv st : ℝ) :
    ∀ n i : ℕ, ∀ c : Cnt,
    (∀ k, c.nStop ≤ k → k < (linRampLoop e g ch iv st i n c).2.nStop → s2 k = e.stop k) →
    linRampLoop (Env.withStop e s2) g ch iv st i n c = linRampLoop e g ch iv st i n c := by
  intro n
  induction n with
  | zero => intro i c _; rfl
  | succ m ih =>
    intro i c h
    have hfin : c.nStop < (linRampLoop e g ch iv st i (m + 1) c).2.nStop := by
      by_cases hs : e.stop c.nStop
      · simp [linRampLoop, hs]
      · simp only [linRampLoop, hs, Bool.false_eq_true, if_false]
        refine lt_of_lt_of_le ?_ (linRampLoop_nStop_le e g ch iv st m (i + 1) _)
        cases g <;> exact Nat.lt_succ_self c.nStop
    have h0 : s2 c.nStop = e.stop c.nStop := h c.nStop (le_refl _) hfin
    by_cases hs : e.stop c.nStop
    · simp only [linRampLoop]
      rw [show (Env.withStop e s2).stop = s2 from rfl, h0,
        show (Env.withStop e s2).measI = e.measI from rfl]
      rw [if_pos hs, if_pos hs]
    · have hrecfinal : (linRampLoop e g ch iv st i (m + 1) c).2 =
          (linRampLoop e g ch iv st (i + 1) m
            ((if g then
                ([Ev.measCurrent (e.measI c.nI), Ev.emitSig (e.measI c.nI) ch],
                  (⟨c.nStop + 1, c.nI + 1, c.nV⟩ : Cnt))
              else ([], ⟨c.nStop + 1, c.nI, c.nV⟩)).2)).2 := by
        simp only [linRampLoop, hs, Bool.false_eq_true, if_false]
      have harg : ∀ k,
          ((if g then
              ([Ev.measCurrent (e.measI c.nI), Ev.emitSig (e.measI c.nI) ch],
                (⟨c.nStop + 1, c.nI + 1, c.nV⟩ : Cnt))
            else ([], ⟨c.nStop + 1, c.nI, c.nV⟩)).2).nStop ≤ k →
          k < (linRampLoop e g ch iv st (i + 1) m
            ((if g then
                ([Ev.measCurrent (e.measI c.nI), Ev.emitSig (e.measI c.nI) ch],
                  (⟨c.nStop + 1, c.nI + 1, c.nV⟩ : Cnt))
              else ([], ⟨c.nStop + 1, c.nI, c.nV⟩)).2)).2.nStop →
          s2 k = e.stop k := by
        intro k hk1 hk2
        refine h k ?_ ?_
        · refine le_trans ?_ hk1
          cases g <;> exact Nat.le_succ c.nStop
        · rw [hrecfinal]
          exact hk2
      have hih := ih (i + 1) _ harg
      simp only [linRampLoop, hs, Bool.false_eq_true, if_false]
      rw [show (Env.withStop e s2).stop = s2 from rfl, h0]
      simp only [hs, Bool.false_eq_true, if_false]
      rw [show (Env.withStop e s2).measI = e.measI from rfl, hih]

theorem linRamp_frame (e : Env) (s2 : ℕ → Bool) (g : Bool) (ch steps : ℕ) (target : ℝ)
    (c : Cnt)
    (h : ∀ k, c.nStop ≤ k → k < (linRamp e g ch steps target c).2.nStop → s2 k = e.stop k) :
    linRamp (Env.withStop e s2) g ch steps target c = linRamp e g ch steps target c := by
  simp only [linRamp]
  rw [show (Env.withStop e s2).measV = e.measV from rfl]
  rw [linRampLoop_frame e s2 g ch ((e.measV c.nV : ℚ) : ℝ)
    ((target - ((e.measV c.nV : ℚ) : ℝ)) / (steps : ℝ)) steps 0 ⟨c.nStop, c.nI, c.nV + 1⟩
    (fun k hk1 hk2 => h k hk1 (by simpa [linRamp] using hk2))]

theorem ensureVC_frame (e : Env) (s2 : ℕ → Bool) (g : Bool) (ch steps : ℕ)
    (tc tv initI : ℚ) (fuel : ℕ) (c : Cnt)
    (h : ∀ k, c.nStop ≤ k →
        k < (ensureVC e g ch steps tc tv initI fuel c).2.nStop → s2 k = e.stop k) :
    ensureVC (Env.withStop e s2) g ch steps tc tv initI fuel c =
      ensureVC e g ch steps tc tv initI fuel c := by
  have hfinal := ensureVC_final_nStop e g ch steps tc tv initI fuel c
  by_cases hnr : tc < |initI|
  · rw [if_pos hnr] at hfinal
    have hrle := linRamp_nStop_le e g ch steps
      ((if tc > 2 / 100 then qsign tv * (1 / 2) * tc else 0 : ℚ) : ℝ) c
    have hframe1 : linRamp (Env.withStop e s2) g ch steps
        ((if tc > 2 / 100 then qsign tv * (1 / 2) * tc else 0 : ℚ) : ℝ) c =
        linRamp e g ch steps
          ((if tc > 2 / 100 then qsign tv * (1 / 2) * tc else 0 : ℚ) : ℝ) c := by
      apply linRamp_frame
      intro k hk1 hk2
      exact h k hk1 (by omega)
    have h0 : s2 (linRamp e g ch steps
        ((if tc > 2 / 100 then qsign tv * (1 / 2) * tc else 0 : ℚ) : ℝ) c).2.nStop =
        e.stop (linRamp e g ch steps
          ((if tc > 2 / 100 then qsign tv * (1 / 2) * tc else 0 : ℚ) : ℝ) c).2.nStop :=
      h _ hrle (by omega)
    simp only [ensureVC]
    rw [if_pos hnr, if_pos hnr, hframe1,
      show (Env.withStop e s2).stop = s2 from rfl,
      show (Env.withStop e s2).measI = e.measI from rfl, h0,
      pollLoop_frame e s2 tc fuel]
  · rw [if_neg hnr] at hfinal
    have hfinal2 : (ensureVC e g ch steps tc tv initI fuel c).2.nStop = c.nStop + 1 := by
      simpa using hfinal
    have h0 : s2 c.nStop = e.stop c.nStop := h c.nStop (le_refl _) (by omega)
    simp only [ensureVC]
    rw [if_neg hnr, if_neg hnr,
      show (Env.withStop e s2).stop = s2 from rfl,
      show (Env.withStop e s2).measI = e.measI from rfl, h0,
      pollLoop_frame e s2 tc fuel]

theorem demagLoop_frame (e : Env) (s2 : ℕ → Bool) (g : Bool) (ch steps : ℕ) :
    ∀ verts : List ℝ, ∀ c : Cnt,
    (∀ k, c.nStop ≤ k → k < (demagLoop e g ch steps verts c).2.nStop → s2 k = e.stop k) →
    demagLoop (Env.withStop e s2) g ch steps verts c = demagLoop e g ch steps verts c := by
  intro verts
  induction verts with
  | nil => intro c _; rfl
  | cons v rest ih =>
    intro c h
    have hrampU := linRamp_nStop_le e g ch steps v ⟨c.nStop + 1, c.nI, c.nV⟩
    have hrestU := demagLoop_nStop_le e g ch steps rest
      (linRamp e g ch steps v ⟨c.nStop + 1, c.nI, c.nV⟩).2
    have hfin : c.nStop < (demagLoop e g ch steps (v :: rest) c).2.nStop := by
      by_cases hs : e.stop c.nStop
      · simp [demagLoop, hs]
      · simp only [demagLoop, hs, Bool.false_eq_true, if_false]
        have h1 : c.nStop + 1 ≤
            (linRamp e g ch steps v ⟨c.nStop + 1, c.nI, c.nV⟩).2.nStop := hrampU
        omega
    have h0 : s2 c.nStop = e.stop c.nStop := h c.nStop (le_refl _) hfin
    by_cases hs : e.stop c.nStop
    · simp only [demagLoop]
      rw [show (Env.withStop e s2).stop = s2 from rfl, h0]
      rw [if_pos hs, if_pos hs]
    · have hunf : (demagLoop e g ch steps (v :: rest) c).2 =
          (demagLoop e g ch steps rest
            (linRamp e g ch steps v ⟨c.nStop + 1, c.nI, c.nV⟩).2).2 := by
        simp only [demagLoop, hs, Bool.false_eq_true, if_false]
      have hframe1 : linRamp (Env.withStop e s2) g ch steps v ⟨c.nStop + 1, c.nI, c.nV⟩ =
          linRamp e g ch steps v ⟨c.nStop + 1, c.nI, c.nV⟩ := by
        apply linRamp_frame
        intro k hk1 hk2
        refine h k (le_trans (Nat.le_succ _) hk1) ?_
        rw [hunf]
        exact lt_of_lt_of_le hk2 hrestU
      have hih : demagLoop (Env.withStop e s2) g ch steps rest
          (linRamp e g ch steps v ⟨c.nStop + 1, c.nI, c.nV⟩).2 =
          demagLoop e g ch steps rest
            (linRamp e g ch steps v ⟨c.nStop + 1, c.nI, c.nV⟩).2 := by
        apply ih
        intro k hk1 hk2
        have hle : c.nStop ≤ k :=
          le_trans (le_trans (Nat.le_succ _) hrampU) hk1
        refine h k hle ?_
        rw [hunf]
        exact hk2
      simp only [demagLoop, hs, Bool.false_eq_true, if_false]
      rw [show (Env.withStop e s2).stop = s2 from rfl, h0]
      simp only [hs, Bool.false_eq_true, if_false]
      rw [hframe1, hih]

theorem demagProc_frame (e : Env) (s2 : ℕ → Bool) (g : Bool) (ch steps : ℕ) (c : Cnt)
    (h : ∀ k, c.nStop ≤ k → k < (demagProc e g ch steps c).2.nStop → s2 k = e.stop k) :
    demagProc (Env.withStop e s2) g ch steps c = demagProc e g ch steps c := by
  simp only [demagProc]
  rw [show (Env.withStop e s2).measI = e.measI from rfl]
  rw [demagLoop_frame e s2 g ch steps (demagVertices ((e.measI c.nI : ℚ) : ℝ))
    ⟨c.nStop, c.nI + 1, c.nV⟩ (fun k hk1 hk2 => h k hk1 (by simpa [demagProc] using hk2))]

theorem threadRun_frame (e : Env) (s2 : ℕ → Bool) (p : Params) (fuel : ℕ)
    (h : ∀ k, k < (threadRun e p fuel).2.1.nStop → s2 k = e.stop k) :
    threadRun (Env.withStop e s2) p fuel = threadRun e p fuel := by
  by_cases hd : (p.demag && !(iscloseZeroAtol (e.measI 0))) = true
  case pos =>
    have hfinal : (ensureVC e p.gsig p.ch p.steps p.tc p.tv (e.measI 0) fuel
        (demagProc e p.gsig p.ch p.steps ⟨0, 1, 0⟩).2).2.nStop <
        (threadRun e p fuel).2.1.nStop := by
      simp only [threadRun]
      rw [if_pos hd]
      split
      · exact Nat.lt_succ_self _
      · split
        · exact Nat.lt_succ_self _
        · dsimp only
          exact lt_of_lt_of_le (Nat.lt_succ_self _)
            (linRamp_nStop_le e p.gsig p.ch p.steps _ ⟨_, _, _⟩)
    have hE_lt : (demagProc e p.gsig p.ch p.steps ⟨0, 1, 0⟩).2.nStop <
        (ensureVC e p.gsig p.ch p.steps p.tc p.tv (e.measI 0) fuel
          (demagProc e p.gsig p.ch p.steps ⟨0, 1, 0⟩).2).2.nStop :=
      ensureVC_nStop_le e p.gsig p.ch p.steps p.tc p.tv (e.measI 0) fuel _
    have hFD : demagProc (Env.withStop e s2) p.gsig p.ch p.steps ⟨0, 1, 0⟩ =
        demagProc e p.gsig p.ch p.steps ⟨0, 1, 0⟩ := by
      apply demagProc_frame
      intro k hk1 hk2
      exact h k (by omega)
    have hFE : ensureVC (Env.withStop e s2) p.gsig p.ch p.steps p.tc p.tv (e.measI 0) fuel
        (demagProc e p.gsig p.ch p.steps ⟨0, 1, 0⟩).2 =
        ensureVC e p.gsig p.ch p.steps p.tc p.tv (e.measI 0) fuel
          (demagProc e p.gsig p.ch p.steps ⟨0, 1, 0⟩).2 := by
      apply ensureVC_frame
      intro k hk1 hk2
      exact h k (by omega)
    have h0 : s2 (ensureVC e p.gsig p.ch p.steps p.tc p.tv (e.measI 0) fuel
        (demagProc e p.gsig p.ch p.steps ⟨0, 1, 0⟩).2).2.nStop =
        e.stop (ensureVC e p.gsig p.ch p.steps p.tc p.tv (e.measI 0) fuel
          (demagProc e p.gsig p.ch p.steps ⟨0, 1, 0⟩).2).2.nStop := h _ hfinal
    simp only [threadRun]
    rw [show (Env.withStop e s2).measI = e.measI from rfl,
        show (Env.withStop e s2).outputOn = e.outputOn from rfl,
        show (Env.withStop e s2).stop = s2 from rfl]
    rw [if_pos hd, if_pos hd, hFD, hFE, h0]
    by_cases hs : e.stop (ensureVC e p.gsig p.ch p.steps p.tc p.tv (e.measI 0) fuel
        (demagProc e p.gsig p.ch p.steps ⟨0, 1, 0⟩).2).2.nStop = true
    · rw [if_pos hs, if_pos hs]
    · rw [if_neg hs, if_neg hs]
      by_cases htr : p.tc ≤ 2 / 1000 ∨ |p.tv| < 1 / 1000
      · rw [if_pos htr, if_pos htr]
      · rw [if_neg htr, if_neg htr]
        have hth : (threadRun e p fuel).2.1 =
            (linRamp e p.gsig p.ch p.steps (p.tv : ℝ)
              ⟨(ensureVC e p.gsig p.ch p.steps p.tc p.tv (e.measI 0) fuel
                  (demagProc e p.gsig p.ch p.steps ⟨0, 1, 0⟩).2).2.nStop + 1,
                (ensureVC e p.gsig p.ch p.steps p.tc p.tv (e.measI 0) fuel
                  (demagProc e p.gsig p.ch p.steps ⟨0, 1, 0⟩).2).2.nI,
                (ensureVC e p.gsig p.ch p.steps p.tc p.tv (e.measI 0) fuel
                  (demagProc e p.gsig p.ch p.steps ⟨0, 1, 0⟩).2).2.nV⟩).2 := by
          simp only [threadRun]
          rw [if_pos hd, if_neg hs, if_neg htr]
        have hFL : linRamp (Env.withStop e s2) p.gsig p.ch p.steps (p.tv : ℝ)
            ⟨(ensureVC e p.gsig p.ch p.steps p.tc p.tv (e.measI 0) fuel
                (demagProc e p.gsig p.ch p.steps ⟨0, 1, 0⟩).2).2.nStop + 1,
              (ensureVC e p.gsig p.ch p.steps p.tc p.tv (e.measI 0) fuel
                (demagProc e p.gsig p.ch p.steps ⟨0, 1, 0⟩).2).2.nI,
              (ensureVC e p.gsig p.ch p.steps p.tc p.tv (e.measI 0) fuel
                (demagProc e p.gsig p.ch p.steps ⟨0, 1, 0⟩).2).2.nV⟩ =
            linRamp e p.gsig p.ch p.steps (p.tv : ℝ)
              ⟨(ensureVC e p.gsig p.ch p.steps p.tc p.tv (e.measI 0) fuel
                  (demagProc e p.gsig p.ch p.steps ⟨0, 1, 0⟩).2).2.nStop + 1,
                (ensureVC e p.gsig p.ch p.steps p.tc p.tv (e.measI 0) fuel
                  (demagProc e p.gsig p.ch p.steps ⟨0, 1, 0⟩).2).2.nI,
                (ensureVC e p.gsig p.ch p.steps p.tc p.tv (e.measI 0) fuel
                  (demagProc e p.gsig p.ch p.steps ⟨0, 1, 0⟩).2).2.nV⟩ := by
          apply linRamp_frame
          intro k hk1 hk2
          apply h k
          rw [hth]
          exact hk2
        rw [hFL]
  case neg =>
    have hfinal : (ensureVC e p.gsig p.ch p.steps p.tc p.tv (e.measI 0) fuel
        ⟨0, 1, 0⟩).2.nStop < (threadRun e p fuel).2.1.nStop := by
      simp only [threadRun]
      rw [if_neg hd]
      split
      · exact Nat.lt_succ_self _
      · split
        · exact Nat.lt_succ_self _
        · dsimp only
          exact lt_of_lt_of_le (Nat.lt_succ_self _)
            (linRamp_nStop_le e p.gsig p.ch p.steps _ ⟨_, _, _⟩)
    have hFE : ensureVC (Env.withStop e s2) p.gsig p.ch p.steps p.tc p.tv (e.measI 0) fuel
        ⟨0, 1, 0⟩ =
        ensureVC e p.gsig p.ch p.steps p.tc p.tv (e.measI 0) fuel ⟨0, 1, 0⟩ := by
      apply ensureVC_frame
      intro k hk1 hk2
      exact h k (by omega)
    have h0 : s2 (ensureVC e p.gsig p.ch p.steps p.tc p.tv (e.measI 0) fuel
        ⟨0, 1, 0⟩).2.nStop =
        e.stop (ensureVC e p.gsig p.ch p.steps p.tc p.tv (e.measI 0) fuel
          ⟨0, 1, 0⟩).2.nStop := h _ hfinal
    simp only [threadRun]
    rw [show (Env.withStop e s2).measI = e.measI from rfl,
        show (Env.withStop e s2).outputOn = e.outputOn from rfl,
        show (Env.withStop e s2).stop = s2 from rfl]
    rw [if_neg hd, if_neg hd, hFE, h0]
    by_cases hs : e.stop (ensureVC e p.gsig p.ch p.steps p.tc p.tv (e.measI 0) fuel
        ⟨0, 1, 0⟩).2.nStop = true
    · rw [if_pos hs, if_pos hs]
    · rw [if_neg hs, if_neg hs]
      by_cases htr : p.tc ≤ 2 / 1000 ∨ |p.tv| < 1 / 1000
      · rw [if_pos htr, if_pos htr]
      · rw [if_neg htr, if_neg htr]
        have hth : (threadRun e p fuel).2.1 =
            (linRamp e p.gsig p.ch p.steps (p.tv : ℝ)
              ⟨(ensureVC e p.gsig p.ch p.steps p.tc p.tv (e.measI 0) fuel
                  ⟨0, 1, 0⟩).2.nStop + 1,
                (ensureVC e p.gsig p.ch p.steps p.tc p.tv (e.measI 0) fuel
                  ⟨0, 1, 0⟩).2.nI,
                (ensureVC e p.gsig p.ch p.steps p.tc p.tv (e.measI 0) fuel
                  ⟨0, 1, 0⟩).2.nV⟩).2 := by
          simp only [threadRun]
          rw [if_neg hd, if_neg hs, if_neg htr]
        have hFL : linRamp (Env.withStop e s2) p.gsig p.ch p.steps (p.tv : ℝ)
            ⟨(ensureVC e p.gsig p.ch p.steps p.tc p.tv (e.measI 0) fuel
                ⟨0, 1, 0⟩).2.nStop + 1,
              (ensureVC e p.gsig p.ch p.steps p.tc p.tv (e.measI 0) fuel
                ⟨0, 1, 0⟩).2.nI,
              (ensureVC e p.gsig p.ch p.steps p.tc p.tv (e.measI 0) fuel
                ⟨0, 1, 0⟩).2.nV⟩ =
            linRamp e p.gsig p.ch p.steps (p.tv : ℝ)
              ⟨(ensureVC e p.gsig p.ch p.steps p.tc p.tv (e.measI 0) fuel
                  ⟨0, 1, 0⟩).2.nStop + 1,
                (ensureVC e p.gsig p.ch p.steps p.tc p.tv (e.measI 0) fuel
                  ⟨0, 1, 0⟩).2.nI,
                (ensureVC e p.gsig p.ch p.steps p.tc p.tv (e.measI 0) fuel
                  ⟨0, 1, 0⟩).2.nV⟩ := by
          apply linRamp_frame
          intro k hk1 hk2
          apply h k
          rw [hth]
          exact hk2
        rw [hFL]

theorem demagProc_sleep_unstopped (e : Env) (g : Bool) (ch steps : ℕ) (c : Cnt)
    (hstop : ∀ k, e.stop k = false) :
    countSleep (demagProc e g ch steps c).1 = 10 := by
  have h := (demagLoop_unstopped e g ch steps hstop
    (demagVertices ((e.measI c.nI : ℚ) : ℝ)) ⟨c.nStop, c.nI + 1, c.nV⟩).2.2
  rw [demagVertices_length] at h
  simp only [countSleep] at h ⊢
  simp [demagProc, List.countP_cons, h]

theorem threadRun_sleep_eq (e : Env) (p : Params) (fuel : ℕ) :
    countSleep (threadRun e p fuel).1 =
      (if (p.demag && !(iscloseZeroAtol (e.measI 0))) = true
       then countSleep (demagProc e p.gsig p.ch p.steps ⟨0, 1, 0⟩).1 else 0) := by
  have h0 : countSleep (if e.outputOn then ([] : List Ev)
      else [Ev.callVoltage 0, Ev.outputCmd true]) = 0 := by
    by_cases ho : e.outputOn <;> simp [ho, countSleep]
  by_cases hd : (p.demag && !(iscloseZeroAtol (e.measI 0))) = true
  case pos =>
    rw [if_pos hd]
    have hE := ensureVC_sleep e p.gsig p.ch p.steps p.tc p.tv (e.measI 0) fuel
      (demagProc e p.gsig p.ch p.steps ⟨0, 1, 0⟩).2
    simp only [threadRun]
    rw [if_pos hd]
    by_cases hs : e.stop (ensureVC e p.gsig p.ch p.steps p.tc p.tv (e.measI 0) fuel
        (demagProc e p.gsig p.ch p.steps ⟨0, 1, 0⟩).2).2.nStop = true
    · rw [if_pos hs]
      simp only [countSleep] at h0 hE ⊢
      simp [List.countP_append, List.countP_cons, h0, hE]
    · rw [if_neg hs]
      by_cases htr : p.tc ≤ 2 / 1000 ∨ |p.tv| < 1 / 1000
      · rw [if_pos htr]
        simp only [countSleep] at h0 hE ⊢
        simp [List.countP_append, List.countP_cons, h0, hE]
      · rw [if_neg htr]
        have hL := linRamp_sleep e p.gsig p.ch p.steps (p.tv : ℝ)
          ⟨(ensureVC e p.gsig p.ch p.steps p.tc p.tv (e.measI 0) fuel
              (demagProc e p.gsig p.ch p.steps ⟨0, 1, 0⟩).2).2.nStop + 1,
            (ensureVC e p.gsig p.ch p.steps p.tc p.tv (e.measI 0) fuel
              (demagProc e p.gsig p.ch p.steps ⟨0, 1, 0⟩).2).2.nI,
            (ensureVC e p.gsig p.ch p.steps p.tc p.tv (e.measI 0) fuel
              (demagProc e p.gsig p.ch p.steps ⟨0, 1, 0⟩).2).2.nV⟩
        simp only [countSleep] at h0 hE hL ⊢
        simp [List.countP_append, List.countP_cons, h0, hE, hL]
  case neg =>
    rw [if_neg hd]
    have hE := ensureVC_sleep e p.gsig p.ch p.steps p.tc p.tv (e.measI 0) fuel
      (⟨0, 1, 0⟩ : Cnt)
    simp only [threadRun]
    rw [if_neg hd]
    by_cases hs : e.stop (ensureVC e p.gsig p.ch p.steps p.tc p.tv (e.measI 0) fuel
        (⟨0, 1, 0⟩ : Cnt)).2.nStop = true
    · rw [if_pos hs]
      simp only [countSleep] at h0 hE ⊢
      simp [List.countP_append, List.countP_cons, h0, hE]
    · rw [if_neg hs]
      by_cases htr : p.tc ≤ 2 / 1000 ∨ |p.tv| < 1 / 1000
      · rw [if_pos htr]
        simp only [countSleep] at h0 hE ⊢
        simp [List.countP_append, List.countP_cons, h0, hE]
      · rw [if_neg htr]
        have hL := linRamp_sleep e p.gsig p.ch p.steps (p.tv : ℝ)
          ⟨(ensureVC e p.gsig p.ch p.steps p.tc p.tv (e.measI 0) fuel
              (⟨0, 1, 0⟩ : Cnt)).2.nStop + 1,
            (ensureVC e p.gsig p.ch p.steps p.tc p.tv (e.measI 0) fuel
              (⟨0, 1, 0⟩ : Cnt)).2.nI,
            (ensureVC e p.gsig p.ch p.steps p.tc p.tv (e.measI 0) fuel
              (⟨0, 1, 0⟩ : Cnt)).2.nV⟩
        simp only [countSleep] at h0 hE hL ⊢
        simp [List.countP_append, List.countP_cons, h0, hE, hL]

/-! # Claim C1 -/

/-- C1 counterexample: a run in which the stop flag becomes set during the
ensure-voltage-compliance poll (false at the first read, true from the second on).  The
poll performs five measurement iterations, yet the whole run reads the stop flag only
twice — the claimed once-per-iteration check of the poll loop does not exist — and
although the flag is set during the ramp, the task exits with NO set_current call at
all: the current limit is never pinned to the last measured current.  The final trace
element is the positive stop-flag read. -/
theorem C1_poll_unchecked_no_pin :
    countCheckStop ((threadRun ⟨fun k => decide (1 ≤ k), fun _ => 2, fun _ => 0, true⟩
      ⟨2, 124 / 100, 5, false, false, 0⟩ 10).1) = 2 ∧
    countMeasCurrent ((threadRun ⟨fun k => decide (1 ≤ k), fun _ => 2, fun _ => 0, true⟩
      ⟨2, 124 / 100, 5, false, false, 0⟩ 10).1) = 7 ∧
    countCallCurrent ((threadRun ⟨fun k => decide (1 ≤ k), fun _ => 2, fun _ => 0, true⟩
      ⟨2, 124 / 100, 5, false, false, 0⟩ 10).1) = 0 ∧
    (threadRun ⟨fun k => decide (1 ≤ k), fun _ => 2, fun _ => 0, true⟩
      ⟨2, 124 / 100, 5, false, false, 0⟩ 10).1 =
      [Ev.clrProt, Ev.queryOutput true, Ev.measCurrent 2, Ev.checkStop false,
       Ev.measCurrent 2, Ev.measCurrent 2, Ev.measCurrent 2, Ev.measCurrent 2,
       Ev.measCurrent 2, Ev.measCurrent 2, Ev.checkStop true] := by
  refine ⟨?_, ?_, ?_, ?_⟩ <;>
    norm_num [threadRun, ensureVC, pollLoop, iscloseZeroAtol, countCheckStop,
      countMeasCurrent, countCallCurrent, List.countP_cons, List.countP_nil,
      List.countP_append]

/-- C1 amended: the stop flag is read once per iteration of the linear voltage ramp loop
and once before each vertex of the demagnetization loop, but never inside the
ensure-voltage-compliance poll loop (that phase reads it exactly once, before polling
starts, regardless of how many poll iterations run).  When the flag is observed set at a
linear-ramp iteration read, the device's current limit is set to the just-measured
current and the loop exits without the remaining steps; a vertex-boundary read that
observes the flag exits the demag loop without any pin.  A run's entire behaviour
depends on the flag only at the reads it performs, so cancelling an already-finished
task changes nothing. -/
theorem C1_cancellation_checkpoints :
    (∀ e : Env, ∀ g : Bool, ∀ ch : ℕ, ∀ iv st : ℝ, ∀ n i : ℕ, ∀ c : Cnt,
        (∀ k, e.stop k = false) →
        countCheckStop (linRampLoop e g ch iv st i n c).1 = n ∧
        countCallCurrent (linRampLoop e g ch iv st i n c).1 = 0) ∧
    (∀ e : Env, ∀ g : Bool, ∀ ch : ℕ, ∀ iv st : ℝ, ∀ i m : ℕ, ∀ c : Cnt,
        e.stop c.nStop = true →
        linRampLoop e g ch iv st i (m + 1) c =
          ([Ev.checkStop true, Ev.measCurrent (e.measI c.nI),
            Ev.callCurrent (e.measI c.nI)], ⟨c.nStop + 1, c.nI + 1, c.nV⟩)) ∧
    (∀ e : Env, ∀ tc : ℚ, ∀ fuel : ℕ, ∀ q0 q1 : ℚ, ∀ rc : ℕ, ∀ c : Cnt,
        countCheckStop (pollLoop e tc fuel q0 q1 rc c).1 = 0 ∧
        (pollLoop e tc fuel q0 q1 rc c).2.nStop = c.nStop) ∧
    (∀ e : Env, ∀ g : Bool, ∀ ch steps : ℕ, ∀ tc tv initI : ℚ, ∀ fuel : ℕ, ∀ c : Cnt,
        |initI| ≤ tc →
        countCheckStop (ensureVC e g ch steps tc tv initI fuel c).1 = 1) ∧
    (∀ e : Env, ∀ g : Bool, ∀ ch steps : ℕ, ∀ verts : List ℝ, ∀ c : Cnt,
        (∀ k, e.stop k = false) →
        countCheckStop (demagLoop e g ch steps verts c).1 = verts.length * (1 + steps) ∧
        countSleep (demagLoop e g ch steps verts c).1 = verts.length) ∧
    (∀ e : Env, ∀ g : Bool, ∀ ch steps : ℕ, ∀ v : ℝ, ∀ rest : List ℝ, ∀ c : Cnt,
        e.stop c.nStop = true →
        demagLoop e g ch steps (v :: rest) c =
          ([Ev.checkStop true], ⟨c.nStop + 1, c.nI, c.nV⟩)) ∧
    (∀ e : Env, ∀ s2 : ℕ → Bool, ∀ p : Params, ∀ fuel : ℕ,
        (∀ k, k < (threadRun e p fuel).2.1.nStop → s2 k = e.stop k) →
        threadRun (Env.withStop e s2) p fuel = threadRun e p fuel) := by
  refine ⟨?_, ?_, ?_, ?_, ?_, ?_, ?_⟩
  · intro e g ch iv st n i c hstop
    exact ⟨(linRampLoop_unstopped e g ch iv st hstop n i c).1,
      (linRampLoop_unstopped e g ch iv st hstop n i c).2.1⟩
  · intro e g ch iv st i m c hs
    simp [linRampLoop, hs]
  · intro e tc fuel q0 q1 rc c
    exact ⟨(pollLoop_counts e tc fuel q0 q1 rc c).1,
      (pollLoop_counts e tc fuel q0 q1 rc c).2.2.2.1⟩
  · intro e g ch steps tc tv initI fuel c h
    exact ensureVC_one_check e g ch steps tc tv initI fuel c h
  · intro e g ch steps verts c hstop
    exact ⟨(demagLoop_unstopped e g ch steps hstop verts c).1,
      (demagLoop_unstopped e g ch steps hstop verts c).2.2⟩
  · intro e g ch steps v rest c hs
    simp [demagLoop, hs]
  · intro e s2 p fuel h
    exact threadRun_frame e s2 p fuel h

/-- Witness for C1 amended at concrete inputs: an unstopped two-step ramp loop checks
twice and never pins; a set flag at a ramp check pins immediately; a no-intermediate
compliance phase checks exactly once; a set flag at a vertex check exits without a pin;
and raising the flag only after the seven checks of a finished concrete run leaves the
run unchanged. -/
theorem C1_cancellation_checkpoints_witness :
    (countCheckStop ((linRampLoop ⟨fun _ => false, fun _ => 2, fun _ => 0, true⟩
        false 0 0 1 0 2 ⟨0, 0, 0⟩).1) = 2 ∧
      countCallCurrent ((linRampLoop ⟨fun _ => false, fun _ => 2, fun _ => 0, true⟩
        false 0 0 1 0 2 ⟨0, 0, 0⟩).1) = 0) ∧
    linRampLoop ⟨fun _ => true, fun _ => 3, fun _ => 0, true⟩ false 0 0 1 0 (4 + 1)
        ⟨0, 0, 0⟩ =
      ([Ev.checkStop true, Ev.measCurrent 3, Ev.callCurrent 3], ⟨1, 1, 0⟩) ∧
    countCheckStop ((ensureVC ⟨fun _ => false, fun _ => 2, fun _ => 0, true⟩
      false 0 5 2 (124 / 100) 2 10 ⟨0, 1, 0⟩).1) = 1 ∧
    demagLoop ⟨fun _ => true, fun _ => 3, fun _ => 0, true⟩ false 0 5 [0] ⟨0, 2, 0⟩ =
      ([Ev.checkStop true], ⟨1, 2, 0⟩) ∧
    threadRun (Env.withStop ⟨fun _ => false, fun _ => 2, fun _ => 0, true⟩
        (fun k => decide (7 ≤ k))) ⟨2, 124 / 100, 5, false, false, 0⟩ 10 =
      threadRun ⟨fun _ => false, fun _ => 2, fun _ => 0, true⟩
        ⟨2, 124 / 100, 5, false, false, 0⟩ 10 := by
  refine ⟨⟨(C1_cancellation_checkpoints.1 _ false 0 0 1 2 0 ⟨0, 0, 0⟩ (fun _ => rfl)).1,
      (C1_cancellation_checkpoints.1 _ false 0 0 1 2 0 ⟨0, 0, 0⟩ (fun _ => rfl)).2⟩,
    C1_cancellation_checkpoints.2.1 _ false 0 0 1 0 4 ⟨0, 0, 0⟩ rfl,
    C1_cancellation_checkpoints.2.2.2.1 _ false 0 5 2 (124 / 100) 2 10 ⟨0, 1, 0⟩
      (by norm_num),
    C1_cancellation_checkpoints.2.2.2.2.2.1 _ false 0 5 0 [] ⟨0, 2, 0⟩ rfl,
    C1_cancellation_checkpoints.2.2.2.2.2.2 _ (fun k => decide (7 ≤ k))
      ⟨2, 124 / 100, 5, false, false, 0⟩ 10 ?_⟩
  intro k hk
  have habs : |(31 : ℚ) / 25| = 31 / 25 := abs_of_pos (by norm_num)
  have h7 : (threadRun ⟨fun _ => false, fun _ => 2, fun _ => 0, true⟩
      ⟨2, 124 / 100, 5, false, false, 0⟩ 10).2.1.nStop = 7 := by
    norm_num [threadRun, ensureVC, pollLoop, linRamp, linRampLoop, iscloseZeroAtol, habs]
  rw [h7] at hk
  simp only [decide_eq_false_iff_not]
  omega

/-! # Claim C4 -/

/-- C4 counterexample: a run with the demagnetization flag set, initial current 1 A, and
the stop flag already set when the run starts.  The vertex loop exits at its very first
stop-flag read — not a single vertex is ramped or settled (no sleep event, no voltage
command) — yet _demagnetization_passed is set to True because the assignment lies after
the loop, so demagnetization_completed() reports true for a procedure that was cancelled
before doing anything, refuting the claim that the flag becomes true only upon
completion of the final zero vertex. -/
theorem C4_flag_true_after_cancelled_demag :
    (threadRun ⟨fun _ => true, fun _ => 1, fun _ => 0, true⟩
      ⟨1, 62 / 100, 5, true, false, 0⟩ 5).2.2 = true ∧
    countSleep ((threadRun ⟨fun _ => true, fun _ => 1, fun _ => 0, true⟩
      ⟨1, 62 / 100, 5, true, false, 0⟩ 5).1) = 0 ∧
    (threadRun ⟨fun _ => true, fun _ => 1, fun _ => 0, true⟩
      ⟨1, 62 / 100, 5, true, false, 0⟩ 5).1 =
      [Ev.clrProt, Ev.queryOutput true, Ev.measCurrent 1, Ev.callCurrent (501 / 100),
       Ev.measCurrent 1, Ev.checkStop true, Ev.checkStop true, Ev.checkStop true] := by
  refine ⟨?_, ?_, ?_⟩ <;>
    norm_num [threadRun, ensureVC, pollLoop, demagProc, demagLoop, demagVertices,
      iscloseZeroAtol, countSleep, List.countP_cons, List.countP_nil, List.countP_append,
      List.range_succ]

/-- C4 amended: in the hardware thread, the demagnetization-passed flag after a run is
true exactly when the procedure was invoked (demagnetization requested and the initial
current not within the 0.01 A tolerance of zero), regardless of whether the procedure
ran through its vertices or was cancelled at any point; when it stays false the run
settles no vertex, and when the run is never cancelled an invoked procedure settles all
ten vertices.  In the dummy thread, run marks demagnetization as passed unconditionally,
even when the procedure was skipped. -/
theorem C4_demag_flag_semantics :
    (∀ e : Env, ∀ p : Params, ∀ fuel : ℕ,
        (threadRun e p fuel).2.2 = (p.demag && !(iscloseZeroAtol (e.measI 0)))) ∧
    (∀ e : Env, ∀ p : Params, ∀ fuel : ℕ, (threadRun e p fuel).2.2 = false →
        countSleep (threadRun e p fuel).1 = 0) ∧
    (∀ e : Env, ∀ p : Params, ∀ fuel : ℕ, (∀ k, e.stop k = false) →
        (threadRun e p fuel).2.2 = true →
        countSleep (threadRun e p fuel).1 = 10) ∧
    (∀ stop : ℕ → Bool, ∀ demagFlag : Bool, ∀ steps : ℕ, ∀ cur0 target : ℚ,
        (dummyRun stop demagFlag steps cur0 target).2 = true) := by
  refine ⟨fun e p fuel => rfl, ?_, ?_, fun stop demagFlag steps cur0 target => rfl⟩
  · intro e p fuel h
    have hd : (p.demag && !(iscloseZeroAtol (e.measI 0))) = false := h
    rw [threadRun_sleep_eq, hd]
    simp
  · intro e p fuel hstop h
    have hd : (p.demag && !(iscloseZeroAtol (e.measI 0))) = true := h
    rw [threadRun_sleep_eq, if_pos hd]
    exact demagProc_sleep_unstopped e p.gsig p.ch p.steps ⟨0, 1, 0⟩ hstop

/-- Witness for C4 amended: a skipped procedure (flag off) settles nothing, and an
uncancelled invoked procedure settles all ten vertices. -/
theorem C4_demag_flag_semantics_witness :
    countSleep ((threadRun ⟨fun _ => false, fun _ => 2, fun _ => 0, true⟩
      ⟨2, 124 / 100, 5, false, false, 0⟩ 10).1) = 0 ∧
    countSleep ((threadRun ⟨fun _ => false, fun _ => 1, fun _ => 0, true⟩
      ⟨1, 62 / 100, 5, true, false, 0⟩ 10).1) = 10 :=
  ⟨C4_demag_flag_semantics.2.1 ⟨fun _ => false, fun _ => 2, fun _ => 0, true⟩
      ⟨2, 124 / 100, 5, false, false, 0⟩ 10 rfl,
    C4_demag_flag_semantics.2.2.1 ⟨fun _ => false, fun _ => 1, fun _ => 0, true⟩
      ⟨1, 62 / 100, 5, true, false, 0⟩ 10 (fun _ => rfl)
      (by
        rw [C4_demag_flag_semantics.1 ⟨fun _ => false, fun _ => 1, fun _ => 0, true⟩
          ⟨1, 62 / 100, 5, true, false, 0⟩ 10]
        norm_num [iscloseZeroAtol])⟩

/-- Witness for C3 at the concrete amplitude 1. -/
theorem C3_demag_vertices_witness :
    (demagVertices 1).length = 10 ∧
    (∀ i : ℕ, i < 9 → (demagVertices 1).getD i 0 = demagVertex 1 i) ∧
    (∀ i : ℕ, i < 9 →
        |(demagVertices 1).getD i 0| = |(1 : ℝ)| * Real.exp (-(7 / 10) * (refPointQ i : ℝ))) ∧
    (demagVertices 1).getD 9 0 = 0 ∧
    (∀ i : ℕ, i + 1 < 9 →
        |(demagVertices 1).getD (i + 1) 0| < |(demagVertices 1).getD i 0|) ∧
    |(demagVertices 1).getD 9 0| < |(demagVertices 1).getD 8 0| ∧
    (∀ i : ℕ, i + 1 < 9 →
        (demagVertices 1).getD i 0 * (demagVertices 1).getD (i + 1) 0 < 0) :=
  C3_demag_vertices 1 one_ne_zero

end VM
